import Mathlib

/-!
# Verification of the Alu-Space-Matrix sparse-matrix program

Shallow embedding of `src/matrix.js`: a sparse matrix is a record of two
declared extents and an association list of elements keyed by (row, col)
pairs.  The association list mirrors a JavaScript object whose keys are the
strings `"r,c"`: keys with a comma are never array indices, so the object
iterates its properties in insertion order, and writing an existing key
overwrites the value in place.  Text is modelled as `List Char`; the parser
and serializer are translated line by line from `loadMatrixFromFile` and
`matrixToString`.
-/

namespace AluMatrix

/-- Error kinds raised by the core, mirroring the `throw new Error(...)`
sites in `matrix.js`.  The first three are the `FormatError` family raised
by the parser; `dimensionMismatch` is raised by the arithmetic operations. -/
inductive MatrixError where
  | notEnoughLines : MatrixError
  | invalidDimension : MatrixError
  | invalidElement (lineNo : Nat) : MatrixError
  | dimensionMismatch : MatrixError
  deriving DecidableEq, Repr

/-- Whether an error belongs to the parser's `FormatError` family. -/
def MatrixError.isFormatError : MatrixError → Bool
  | .notEnoughLines => true
  | .invalidDimension => true
  | .invalidElement _ => true
  | .dimensionMismatch => false

/-- The sparse matrix record of `createSparseMatrix`: declared extents plus
the element mapping, kept as an insertion-ordered association list from
(row, col) to the stored integer value. -/
structure SparseMatrix where
  rows : Nat
  cols : Nat
  elements : List ((Nat × Nat) × Int)
  deriving DecidableEq, Repr

/-- `createSparseMatrix(numRows, numCols)`. -/
def createSparseMatrix (numRows numCols : Nat) : SparseMatrix :=
  { rows := numRows, cols := numCols, elements := [] }

/-- First binding for a key in the element list, `none` when absent
(mirrors `key in matrix.elements`). -/
def lookupElem (l : List ((Nat × Nat) × Int)) (k : Nat × Nat) : Option Int :=
  match l with
  | [] => none
  | e :: rest => if e.1 = k then some e.2 else lookupElem rest k

/-- Writing a key into a JavaScript object: overwrite in place when
present, append when new. -/
def setKey (l : List ((Nat × Nat) × Int)) (k : Nat × Nat) (v : Int) :
    List ((Nat × Nat) × Int) :=
  match l with
  | [] => [(k, v)]
  | e :: rest => if e.1 = k then (k, v) :: rest else e :: setKey rest k v

/-- `getMatrixElement(matrix, row, col)`: stored value or 0 when absent. -/
def getMatrixElement (m : SparseMatrix) (row col : Nat) : Int :=
  (lookupElem m.elements (row, col)).getD 0

/-- `setMatrixElement(matrix, row, col, value)`: grows the extents to
`row+1` / `col+1` when the coordinate falls outside them, then stores the
value, overwriting any prior value at the key. -/
def setMatrixElement (m : SparseMatrix) (row col : Nat) (value : Int) :
    SparseMatrix :=
  { rows := if row ≥ m.rows then row + 1 else m.rows,
    cols := if col ≥ m.cols then col + 1 else m.cols,
    elements := setKey m.elements (row, col) value }

/-- Well-formedness invariant: stored keys are distinct and every stored
coordinate lies within the declared extents. -/
def wfM (m : SparseMatrix) : Prop :=
  (m.elements.map Prod.fst).Nodup ∧
    ∀ e ∈ m.elements, e.1.1 < m.rows ∧ e.1.2 < m.cols

instance (m : SparseMatrix) : Decidable (wfM m) := by
  unfold wfM; infer_instance

/-- The first pass of `addMatrices`/`subtractMatrices` (and the element
loop of `loadMatrixFromFile`): apply `setMatrixElement` for each listed
element in order. -/
def copyFold (l : List ((Nat × Nat) × Int)) (acc : SparseMatrix) : SparseMatrix :=
  l.foldl (fun acc e => setMatrixElement acc e.1.1 e.1.2 e.2) acc

/-- The second pass of `addMatrices`/`subtractMatrices`: read the result's
current value at each listed coordinate, combine it with the listed value
by `op`, and write it back. -/
def accumFold (op : Int → Int → Int) (l : List ((Nat × Nat) × Int))
    (acc : SparseMatrix) : SparseMatrix :=
  l.foldl
    (fun acc e =>
      setMatrixElement acc e.1.1 e.1.2 (op (getMatrixElement acc e.1.1 e.1.2) e.2))
    acc

/-- `addMatrices(matrix1, matrix2)`: dimension check, copy the first
operand's elements into a fresh result, then accumulate the second
operand's elements by read-modify-write. -/
def addMatrices (m1 m2 : SparseMatrix) : Except MatrixError SparseMatrix :=
  if m1.rows ≠ m2.rows ∨ m1.cols ≠ m2.cols then
    .error .dimensionMismatch
  else
    .ok (accumFold (· + ·) m2.elements
      (copyFold m1.elements (createSparseMatrix m1.rows m1.cols)))

/-- `subtractMatrices(matrix1, matrix2)`: as `addMatrices` with the second
pass subtracting. -/
def subtractMatrices (m1 m2 : SparseMatrix) : Except MatrixError SparseMatrix :=
  if m1.rows ≠ m2.rows ∨ m1.cols ≠ m2.cols then
    .error .dimensionMismatch
  else
    .ok (accumFold (· - ·) m2.elements
      (copyFold m1.elements (createSparseMatrix m1.rows m1.cols)))

/-- The inner `k` loop body of `multiplyMatrices`: accumulate
`value * b[col,k]` into `result[row,k]`, skipping exact zeros of `b`. -/
def mulInnerStep (m2 : SparseMatrix) (row col : Nat) (value : Int)
    (acc : SparseMatrix) (k : Nat) : SparseMatrix :=
  let otherValue := getMatrixElement m2 col k
  if otherValue ≠ 0 then
    setMatrixElement acc row k (getMatrixElement acc row k + value * otherValue)
  else acc

/-- Processing one stored element of the first operand in
`multiplyMatrices`: run the inner loop for `k = 0 .. matrix2.cols - 1`. -/
def mulStep (m2 : SparseMatrix) (acc : SparseMatrix)
    (e : (Nat × Nat) × Int) : SparseMatrix :=
  (List.range m2.cols).foldl (mulInnerStep m2 e.1.1 e.1.2 e.2) acc

/-- `multiplyMatrices(matrix1, matrix2)`. -/
def multiplyMatrices (m1 m2 : SparseMatrix) : Except MatrixError SparseMatrix :=
  if m1.cols ≠ m2.rows then
    .error .dimensionMismatch
  else
    .ok (m1.elements.foldl (mulStep m2) (createSparseMatrix m1.rows m2.cols))

/-! ## Text model: splitting, trimming, digits -/

/-- `text.split('\n')` on a character list; always returns at least one
(possibly empty) line. -/
def splitNewline : List Char → List (List Char)
  | [] => [[]]
  | c :: rest =>
    let r := splitNewline rest
    if c = '\n' then [] :: r
    else
      match r with
      | h :: t => (c :: h) :: t
      | [] => [[c]]

/-- `line.trim()`: strip whitespace from both ends. -/
def trimChars (cs : List Char) : List Char :=
  ((cs.dropWhile Char.isWhitespace).reverse.dropWhile Char.isWhitespace).reverse

/-- Numeric value of a run of decimal digit characters (how `parseInt`
reads the string matched by `\d+`). -/
def digitsToNat (ds : List Char) : Nat :=
  ds.foldl (fun a c => a * 10 + (c.toNat - 48)) 0

/-- Split off the maximal leading run of decimal digits (the greedy
`\d+`), returning the digits and the remaining characters. -/
def spanDigits (cs : List Char) : List Char × List Char :=
  (cs.takeWhile Char.isDigit, cs.dropWhile Char.isDigit)

/-! ## Parsing (`loadMatrixFromFile` without the file-system part) -/

/-- Match a header line against `/^rows=(\d+)/` or `/^cols=(\d+)/`:
the literal prefix, then at least one digit; anything may follow.
Returns the value of the digit group. -/
def parseHeader (pre : List Char) (cs : List Char) : Option Nat :=
  if cs.take pre.length = pre then
    let p := spanDigits (cs.drop pre.length)
    if p.1 = [] then none else some (digitsToNat p.1)
  else none

/-- Match an optional leading minus sign followed by at least one digit
(the `(-?\d+)` group), returning the value and the rest. -/
def parseSignedInt (cs : List Char) : Option (Int × List Char) :=
  match cs with
  | [] => none
  | c :: rest =>
    if c = '-' then
      let p := spanDigits rest
      if p.1 = [] then none else some (-(digitsToNat p.1 : Int), p.2)
    else
      let p := spanDigits (c :: rest)
      if p.1 = [] then none else some ((digitsToNat p.1 : Int), p.2)

/-- Match a trimmed line against `/^\((\d+),\s*(\d+),\s*(-?\d+)\)/`:
open paren, digits, comma, optional whitespace, digits, comma, optional
whitespace, signed integer, close paren; anything may follow the close
paren.  Returns the three captured values. -/
def parseElementLine (cs : List Char) : Option (Nat × Nat × Int) :=
  match cs with
  | [] => none
  | c0 :: rest =>
    if c0 = '(' then
      let p1 := spanDigits rest
      if p1.1 = [] then none else
      match p1.2 with
      | [] => none
      | c1 :: rest2 =>
        if c1 = ',' then
          let rest2' := rest2.dropWhile Char.isWhitespace
          let p2 := spanDigits rest2'
          if p2.1 = [] then none else
          match p2.2 with
          | [] => none
          | c2 :: rest3 =>
            if c2 = ',' then
              let rest3' := rest3.dropWhile Char.isWhitespace
              match parseSignedInt rest3' with
              | some (v, c3 :: _) =>
                if c3 = ')' then some (digitsToNat p1.1, digitsToNat p2.1, v)
                else none
              | _ => none
            else none
        else none
    else none

/-- The element-line loop of `loadMatrixFromFile`: `i` is the 0-based index
of the current line in the file; blank lines (after trimming) are skipped,
each parsed triple is applied via `setMatrixElement`, and a line that fails
to match raises a format error carrying the 1-based line number. -/
def parseElements (lines : List (List Char)) (i : Nat) (m : SparseMatrix) :
    Except MatrixError SparseMatrix :=
  match lines with
  | [] => .ok m
  | l :: rest =>
    let t := trimChars l
    if t = [] then parseElements rest (i + 1) m
    else
      match parseElementLine t with
      | none => .error (.invalidElement (i + 1))
      | some (r, c, v) => parseElements rest (i + 1) (setMatrixElement m r c v)

/-- The body of `loadMatrixFromFile` applied to the list of lines:
require at least two lines, parse the two dimension headers, then apply
each element line in file order. -/
def parseMatrixLines : List (List Char) → Except MatrixError SparseMatrix
  | l0 :: l1 :: rest =>
    match parseHeader "rows=".data (trimChars l0),
          parseHeader "cols=".data (trimChars l1) with
    | some totalRows, some totalCols =>
      parseElements rest 2 (createSparseMatrix totalRows totalCols)
    | _, _ => .error .invalidDimension
  | _ => .error .notEnoughLines

/-- `loadMatrixFromFile`, with the file contents passed directly: split on
newlines and process the lines. -/
def parseMatrix (text : List Char) : Except MatrixError SparseMatrix :=
  parseMatrixLines (splitNewline text)

/-! ## Serialization (`matrixToString`) -/

/-- The decimal digit character for a value below ten. -/
def digitChar (n : Nat) : Char :=
  match n with
  | 0 => '0' | 1 => '1' | 2 => '2' | 3 => '3' | 4 => '4'
  | 5 => '5' | 6 => '6' | 7 => '7' | 8 => '8' | _ => '9'

/-- Decimal digits of a natural number (the behaviour of the template
interpolation `${n}` for a non-negative integer). -/
def natDigits (n : Nat) : List Char :=
  if h : n < 10 then [digitChar n]
  else
    have : n / 10 < n := Nat.div_lt_self (by omega) (by omega)
    natDigits (n / 10) ++ [digitChar (n % 10)]

/-- Decimal rendering of an integer value (`${value}`). -/
def intChars (v : Int) : List Char :=
  if v < 0 then '-' :: natDigits v.natAbs else natDigits v.toNat

/-- One emitted element line `(<row>, <col>, <value>)`. -/
def elementLineChars (e : (Nat × Nat) × Int) : List Char :=
  '(' :: natDigits e.1.1 ++ ',' :: ' ' :: natDigits e.1.2 ++
    ',' :: ' ' :: intChars e.2 ++ [')']

/-- `matrixToString(matrix)`: the two header lines, one line per stored
element in mapping iteration order, and a final `trim()`. -/
def matrixToString (m : SparseMatrix) : List Char :=
  trimChars
    ("rows=".data ++ natDigits m.rows ++ '\n' ::
      ("cols=".data ++ natDigits m.cols ++ '\n' ::
        (m.elements.map (fun e => elementLineChars e ++ ['\n'])).flatten))

/-! ## Variant without the sparsity skip

The spec states the skip of exact zeros of the second operand inside
`multiplyMatrices` is an optimization only.  This variant is the same loop
with the `otherValue !== 0` guard removed, for comparison. -/

/-- Inner loop body of multiplication without the zero skip. -/
def mulInnerStepNoSkip (m2 : SparseMatrix) (row col : Nat) (value : Int)
    (acc : SparseMatrix) (k : Nat) : SparseMatrix :=
  setMatrixElement acc row k
    (getMatrixElement acc row k + value * getMatrixElement m2 col k)

/-- One element of the first operand, without the zero skip. -/
def mulStepNoSkip (m2 : SparseMatrix) (acc : SparseMatrix)
    (e : (Nat × Nat) × Int) : SparseMatrix :=
  (List.range m2.cols).foldl (mulInnerStepNoSkip m2 e.1.1 e.1.2 e.2) acc

/-- `multiplyMatrices` with the zero skip removed. -/
def multiplyMatricesNoSkip (m1 m2 : SparseMatrix) :
    Except MatrixError SparseMatrix :=
  if m1.cols ≠ m2.rows then
    .error .dimensionMismatch
  else
    .ok (m1.elements.foldl (mulStepNoSkip m2) (createSparseMatrix m1.rows m2.cols))

/-! ## Heap model of the arithmetic operations

`SparseMatrix` values in JavaScript are heap objects passed by reference,
and `setMatrixElement` mutates its first argument in place.  To reason
about mutation we model the heap as a list of matrices indexed by
reference; the only mutation primitive in the source, `setMatrixElement`,
becomes an in-place update of one heap slot.  Each arithmetic operation
allocates its `result` with `createSparseMatrix` (a fresh reference at the
end of the heap) and every write targets that reference, exactly as in the
source, where the loops call `setMatrixElement(result, ...)` only. -/

/-- Dereference a heap slot. -/
def heapGet (h : List SparseMatrix) (ref : Nat) : SparseMatrix :=
  h.getD ref (createSparseMatrix 0 0)

/-- `setMatrixElement` acting on a heap slot in place. -/
def heapSetElem (h : List SparseMatrix) (ref row col : Nat) (v : Int) :
    List SparseMatrix :=
  h.set ref (setMatrixElement (heapGet h ref) row col v)

/-- First pass of `addMatrices`/`subtractMatrices` over the heap: copy
each element of the matrix at `r1` into the result slot `res`. -/
def addPass1 (h : List SparseMatrix) (r1 res : Nat) : List SparseMatrix :=
  (heapGet h r1).elements.foldl
    (fun hh e => heapSetElem hh res e.1.1 e.1.2 e.2) h

/-- Second pass of `addMatrices` over the heap: read-modify-write the
result slot with each element of the matrix at `r2`. -/
def addPass2 (h : List SparseMatrix) (r2 res : Nat) : List SparseMatrix :=
  (heapGet h r2).elements.foldl
    (fun hh e => heapSetElem hh res e.1.1 e.1.2
      (getMatrixElement (heapGet hh res) e.1.1 e.1.2 + e.2)) h

/-- Second pass of `subtractMatrices` over the heap. -/
def subPass2 (h : List SparseMatrix) (r2 res : Nat) : List SparseMatrix :=
  (heapGet h r2).elements.foldl
    (fun hh e => heapSetElem hh res e.1.1 e.1.2
      (getMatrixElement (heapGet hh res) e.1.1 e.1.2 - e.2)) h

/-- The element loop of `multiplyMatrices` over the heap: for each stored
element of the matrix at `r1`, run the inner `k` loop, reading the second
operand and the result through the heap and writing the result slot. -/
def mulPass (h : List SparseMatrix) (r1 r2 res : Nat) : List SparseMatrix :=
  (heapGet h r1).elements.foldl
    (fun hh e =>
      (List.range (heapGet hh r2).cols).foldl
        (fun hh k =>
          if getMatrixElement (heapGet hh r2) e.1.2 k ≠ 0 then
            heapSetElem hh res e.1.1 k
              (getMatrixElement (heapGet hh res) e.1.1 k +
                e.2 * getMatrixElement (heapGet hh r2) e.1.2 k)
          else hh) hh) h

/-- `addMatrices` over the heap: returns the heap after the call together
with either a reference to the freshly allocated result or the thrown
error. -/
def addRef (h : List SparseMatrix) (r1 r2 : Nat) :
    List SparseMatrix × Except MatrixError Nat :=
  if (heapGet h r1).rows ≠ (heapGet h r2).rows ∨
      (heapGet h r1).cols ≠ (heapGet h r2).cols then
    (h, .error .dimensionMismatch)
  else
    (addPass2 (addPass1
        (h ++ [createSparseMatrix (heapGet h r1).rows (heapGet h r1).cols])
        r1 h.length)
      r2 h.length, .ok h.length)

/-- `subtractMatrices` over the heap. -/
def subtractRef (h : List SparseMatrix) (r1 r2 : Nat) :
    List SparseMatrix × Except MatrixError Nat :=
  if (heapGet h r1).rows ≠ (heapGet h r2).rows ∨
      (heapGet h r1).cols ≠ (heapGet h r2).cols then
    (h, .error .dimensionMismatch)
  else
    (subPass2 (addPass1
        (h ++ [createSparseMatrix (heapGet h r1).rows (heapGet h r1).cols])
        r1 h.length)
      r2 h.length, .ok h.length)

/-- `multiplyMatrices` over the heap. -/
def multiplyRef (h : List SparseMatrix) (r1 r2 : Nat) :
    List SparseMatrix × Except MatrixError Nat :=
  if (heapGet h r1).cols ≠ (heapGet h r2).rows then
    (h, .error .dimensionMismatch)
  else
    (mulPass (h ++ [createSparseMatrix (heapGet h r1).rows (heapGet h r2).cols])
      r1 r2 h.length, .ok h.length)

/-! ## Spec-side full-match predicates

The spec describes each line as matching a pattern; read literally, a line
"matches `rows=<non-negative integer>`" when the whole trimmed line has
that form.  These full-match predicates follow the spec's wording; the
source's regexes are anchored only at the start of the line, which the
refinement theorems below compare against. -/

/-- The whole character list is the literal prefix followed by at least
one digit and nothing else. -/
def fullHeaderMatch (pre cs : List Char) : Bool :=
  cs.take pre.length = pre &&
    (cs.drop pre.length ≠ [] && (cs.drop pre.length).all Char.isDigit)

/-- The whole character list is
`(<non-negative integer>, <non-negative integer>, <optionally-negative integer>)`
with optional whitespace after each comma, and nothing after the closing
parenthesis. -/
def fullElementMatch (cs : List Char) : Bool :=
  match cs with
  | [] => false
  | c0 :: rest =>
    if c0 = '(' then
      let p1 := spanDigits rest
      if p1.1 = [] then false else
      match p1.2 with
      | [] => false
      | c1 :: rest2 =>
        if c1 = ',' then
          let rest2' := rest2.dropWhile Char.isWhitespace
          let p2 := spanDigits rest2'
          if p2.1 = [] then false else
          match p2.2 with
          | [] => false
          | c2 :: rest3 =>
            if c2 = ',' then
              let rest3' := rest3.dropWhile Char.isWhitespace
              match parseSignedInt rest3' with
              | some (_, rest4) => rest4 = [')']
              | none => false
            else false
        else false
    else false

/-- The failure condition of `parse` as the spec states it (full-match
reading), applied to the list of lines: fewer than two lines, a header
line that is not exactly `rows=`/`cols=` followed by digits, or a
non-blank element line that is not exactly an element triple. -/
def specParseFailsFullLines : List (List Char) → Bool
  | l0 :: l1 :: rest =>
    !fullHeaderMatch "rows=".data (trimChars l0) ||
      !fullHeaderMatch "cols=".data (trimChars l1) ||
      rest.any (fun l =>
        trimChars l ≠ [] && !fullElementMatch (trimChars l))
  | _ => true

/-- The failure condition of `parse` as the spec states it, full-match
reading. -/
def specParseFailsFull (text : List Char) : Bool :=
  specParseFailsFullLines (splitNewline text)

/-- The failure condition of `parse` with each pattern matched as a prefix
of the trimmed line, exactly as the source's regexes do, applied to the
list of lines. -/
def specParseFailsPrefixLines : List (List Char) → Bool
  | l0 :: l1 :: rest =>
    (parseHeader "rows=".data (trimChars l0)).isNone ||
      (parseHeader "cols=".data (trimChars l1)).isNone ||
      rest.any (fun l =>
        trimChars l ≠ [] && (parseElementLine (trimChars l)).isNone)
  | _ => true

/-- The failure condition of `parse` with prefix matching. -/
def specParseFailsPrefix (text : List Char) : Bool :=
  specParseFailsPrefixLines (splitNewline text)

/-- Whether an `Except` result is an error. -/
def exceptIsError : Except MatrixError SparseMatrix → Bool
  | .error _ => true
  | .ok _ => false

/-- A parsed element triple from one raw line: `none` for blank lines and
for lines that fail to match. -/
def lineTriple (l : List Char) : Option (Nat × Nat × Int) :=
  parseElementLine (trimChars l)

/-- The element entry `((row, col), value)` of a parsed triple. -/
def tripleEntry (t : Nat × Nat × Int) : (Nat × Nat) × Int :=
  ((t.1, t.2.1), t.2.2)

/-- The value of the last element line for a given coordinate, in file
order, among the lines after the two headers. -/
def lastTriple (lines : List (List Char)) (r c : Nat) : Option Int :=
  ((lines.filterMap lineTriple).reverse.find?
    (fun t => t.1 = r && t.2.1 = c)).map (fun t => t.2.2)

/-! ## Line-joining helpers used to reason about serialization -/

/-- Join lines, terminating each with a newline (the shape of the text
built by `matrixToString` before its final trim). -/
def unlines (ls : List (List Char)) : List Char :=
  (ls.map (fun l => l ++ ['\n'])).flatten

/-- Join lines with newline separators (no trailing newline). -/
def sepJoin : List (List Char) → List Char
  | [] => []
  | [l] => l
  | l :: ls => l ++ '\n' :: sepJoin ls

/-- A line that survives splitting and trimming intact: nonempty, free of
newlines, and delimited by non-whitespace characters. -/
def GoodLine (l : List Char) : Prop :=
  (∃ a, l.head? = some a ∧ a.isWhitespace = false) ∧
    (∃ b, l.getLast? = some b ∧ b.isWhitespace = false) ∧
    ∀ c ∈ l, c ≠ '\n'

/-! ## Lemmas: keys, lookup, set, well-formedness -/

theorem lookupElem_setKey (l : List ((Nat × Nat) × Int)) (k k' : Nat × Nat)
    (v : Int) :
    lookupElem (setKey l k v) k' = if k' = k then some v else lookupElem l k' := by
  induction l with
  | nil =>
    rcases eq_or_ne k' k with h | h
    · subst h; simp [setKey, lookupElem]
    · simp [setKey, lookupElem, h, Ne.symm h]
  | cons e rest ih =>
    simp only [setKey]
    by_cases he : e.1 = k
    · subst he
      rcases eq_or_ne k' e.1 with h | h
      · subst h; simp [lookupElem]
      · simp [lookupElem, h, Ne.symm h]
    · simp only [if_neg he, lookupElem, ih]
      by_cases h1 : e.1 = k'
      · have h2 : ¬ k' = k := fun hk => he (h1.trans hk)
        simp [h1, h2]
      · simp [h1]

theorem setKey_map_fst (l : List ((Nat × Nat) × Int)) (k : Nat × Nat) (v : Int) :
    (setKey l k v).map Prod.fst =
      if k ∈ l.map Prod.fst then l.map Prod.fst else l.map Prod.fst ++ [k] := by
  induction l with
  | nil => simp [setKey]
  | cons e rest ih =>
    simp only [setKey]
    by_cases he : e.1 = k
    · subst he; simp
    · have hne : ¬ k = e.1 := fun h => he h.symm
      simp only [if_neg he, List.map_cons, ih, List.mem_cons]
      by_cases hk : k ∈ rest.map Prod.fst <;> simp [hk, hne]

theorem mem_setKey {l : List ((Nat × Nat) × Int)} {k : Nat × Nat} {v : Int}
    {e : (Nat × Nat) × Int} (h : e ∈ setKey l k v) : e ∈ l ∨ e = (k, v) := by
  induction l with
  | nil => simp [setKey] at h; simp [h]
  | cons e' rest ih =>
    simp only [setKey] at h
    by_cases he : e'.1 = k
    · simp [he] at h
      rcases h with h | h
      · right; simp [h]
      · left; simp [h]
    · simp [he] at h
      rcases h with h | h
      · left; simp [h]
      · rcases ih h with h' | h'
        · left; simp [h']
        · right; exact h'

theorem getMatrixElement_set (m : SparseMatrix) (r c r' c' : Nat) (v : Int) :
    getMatrixElement (setMatrixElement m r c v) r' c' =
      if r' = r ∧ c' = c then v else getMatrixElement m r' c' := by
  simp only [getMatrixElement, setMatrixElement, lookupElem_setKey, Prod.mk.injEq]
  by_cases h : r' = r ∧ c' = c <;> simp [h]

theorem rows_set (m : SparseMatrix) (r c : Nat) (v : Int) :
    (setMatrixElement m r c v).rows = max m.rows (r + 1) := by
  simp only [setMatrixElement]
  split <;> omega

theorem cols_set (m : SparseMatrix) (r c : Nat) (v : Int) :
    (setMatrixElement m r c v).cols = max m.cols (c + 1) := by
  simp only [setMatrixElement]
  split <;> omega

theorem wfM_create (r c : Nat) : wfM (createSparseMatrix r c) := by
  simp [wfM, createSparseMatrix]

theorem wfM_set {m : SparseMatrix} (hm : wfM m) (r c : Nat) (v : Int) :
    wfM (setMatrixElement m r c v) := by
  obtain ⟨hnd, hb⟩ := hm
  constructor
  · show ((setKey m.elements (r, c) v).map Prod.fst).Nodup
    rw [setKey_map_fst]
    by_cases hk : (r, c) ∈ m.elements.map Prod.fst
    · simpa [hk] using hnd
    · simp only [hk, if_false]
      rw [List.nodup_append]
      refine ⟨hnd, List.nodup_singleton _, ?_⟩
      intro a ha hb
      rw [List.mem_singleton] at hb
      subst hb
      exact hk ha
  · intro e he
    rcases mem_setKey he with h | h
    · have h2 := hb e h
      rw [rows_set, cols_set]
      exact ⟨lt_max_of_lt_left h2.1, lt_max_of_lt_left h2.2⟩
    · subst h
      rw [rows_set, cols_set]
      exact ⟨lt_max_of_lt_right (Nat.lt_succ_self r),
        lt_max_of_lt_right (Nat.lt_succ_self c)⟩

theorem getMatrixElement_create (r c i j : Nat) :
    getMatrixElement (createSparseMatrix r c) i j = 0 := rfl

theorem lookupElem_eq_none_of_not_mem {l : List ((Nat × Nat) × Int)}
    {k : Nat × Nat} (h : k ∉ l.map Prod.fst) : lookupElem l k = none := by
  induction l with
  | nil => rfl
  | cons e rest ih =>
    simp only [List.map_cons, List.mem_cons] at h
    push_neg at h
    simp only [lookupElem, ih h.2, if_neg (Ne.symm h.1)]

theorem getMatrixElement_eq_zero_of_not_mem {m : SparseMatrix} {i j : Nat}
    (h : (i, j) ∉ m.elements.map Prod.fst) : getMatrixElement m i j = 0 := by
  simp [getMatrixElement, lookupElem_eq_none_of_not_mem h]

theorem getMatrixElement_eq_zero_of_row_ge {m : SparseMatrix} (hm : wfM m)
    {i : Nat} (hi : m.rows ≤ i) (j : Nat) : getMatrixElement m i j = 0 := by
  apply getMatrixElement_eq_zero_of_not_mem
  intro hmem
  obtain ⟨e, he, hfst⟩ := List.mem_map.mp hmem
  have := (hm.2 e he).1
  rw [hfst] at this
  omega

/-! ## Lemmas: the two passes of addition and subtraction -/

theorem wfM_copyFold (l : List ((Nat × Nat) × Int)) {acc : SparseMatrix}
    (h : wfM acc) : wfM (copyFold l acc) := by
  induction l generalizing acc with
  | nil => exact h
  | cons e rest ih =>
    simp only [copyFold, List.foldl_cons]
    exact ih (wfM_set h e.1.1 e.1.2 e.2)

theorem wfM_accumFold (op : Int → Int → Int) (l : List ((Nat × Nat) × Int))
    {acc : SparseMatrix} (h : wfM acc) : wfM (accumFold op l acc) := by
  induction l generalizing acc with
  | nil => exact h
  | cons e rest ih =>
    simp only [accumFold, List.foldl_cons]
    exact ih (wfM_set h e.1.1 e.1.2 _)

theorem foldl_max_eq_of_le (f : (Nat × Nat) × Int → Nat)
    (l : List ((Nat × Nat) × Int)) (r : Nat) (h : ∀ e ∈ l, f e ≤ r) :
    l.foldl (fun a e => max a (f e)) r = r := by
  induction l with
  | nil => rfl
  | cons e rest ih =>
    simp only [List.foldl_cons]
    rw [Nat.max_eq_left (h e (by simp))]
    exact ih fun e' he' => h e' (by simp [he'])

theorem rows_copyFold (l : List ((Nat × Nat) × Int)) (acc : SparseMatrix) :
    (copyFold l acc).rows = l.foldl (fun a e => max a (e.1.1 + 1)) acc.rows := by
  induction l generalizing acc with
  | nil => rfl
  | cons e rest ih =>
    simp only [copyFold, List.foldl_cons] at *
    rw [ih, rows_set]

theorem cols_copyFold (l : List ((Nat × Nat) × Int)) (acc : SparseMatrix) :
    (copyFold l acc).cols = l.foldl (fun a e => max a (e.1.2 + 1)) acc.cols := by
  induction l generalizing acc with
  | nil => rfl
  | cons e rest ih =>
    simp only [copyFold, List.foldl_cons] at *
    rw [ih, cols_set]

theorem rows_accumFold (op : Int → Int → Int) (l : List ((Nat × Nat) × Int))
    (acc : SparseMatrix) :
    (accumFold op l acc).rows = l.foldl (fun a e => max a (e.1.1 + 1)) acc.rows := by
  induction l generalizing acc with
  | nil => rfl
  | cons e rest ih =>
    simp only [accumFold, List.foldl_cons] at *
    rw [ih, rows_set]

theorem cols_accumFold (op : Int → Int → Int) (l : List ((Nat × Nat) × Int))
    (acc : SparseMatrix) :
    (accumFold op l acc).cols = l.foldl (fun a e => max a (e.1.2 + 1)) acc.cols := by
  induction l generalizing acc with
  | nil => rfl
  | cons e rest ih =>
    simp only [accumFold, List.foldl_cons] at *
    rw [ih, cols_set]

theorem setKey_eq_append {l : List ((Nat × Nat) × Int)} {k : Nat × Nat}
    (v : Int) (h : k ∉ l.map Prod.fst) : setKey l k v = l ++ [(k, v)] := by
  induction l with
  | nil => rfl
  | cons e rest ih =>
    simp only [List.map_cons, List.mem_cons] at h
    push_neg at h
    simp only [setKey, if_neg (Ne.symm h.1), ih h.2, List.cons_append]

theorem elements_copyFold (l : List ((Nat × Nat) × Int)) (acc : SparseMatrix)
    (h : (acc.elements.map Prod.fst ++ l.map Prod.fst).Nodup) :
    (copyFold l acc).elements = acc.elements ++ l := by
  induction l generalizing acc with
  | nil => simp [copyFold]
  | cons e rest ih =>
    have hk : e.1 ∉ acc.elements.map Prod.fst := by
      intro hmem
      have := (List.nodup_append.mp h).2.2
      exact this hmem (by simp)
    simp only [copyFold, List.foldl_cons]
    have hstep : (setMatrixElement acc e.1.1 e.1.2 e.2).elements =
        acc.elements ++ [e] := by
      show setKey acc.elements (e.1.1, e.1.2) e.2 = acc.elements ++ [e]
      rw [setKey_eq_append e.2 (by simpa using hk)]
    have := ih (setMatrixElement acc e.1.1 e.1.2 e.2) ?_
    · rw [copyFold] at this
      rw [this, hstep, List.append_assoc, List.singleton_append]
    · rw [hstep]
      simpa [List.append_assoc] using h

theorem get_copyFold_create (m1 : SparseMatrix)
    (hnd : (m1.elements.map Prod.fst).Nodup) (r c i j : Nat) :
    getMatrixElement (copyFold m1.elements (createSparseMatrix r c)) i j =
      getMatrixElement m1 i j := by
  have h := elements_copyFold m1.elements (createSparseMatrix r c)
    (by simpa [createSparseMatrix] using hnd)
  simp only [getMatrixElement]
  rw [h]
  simp [createSparseMatrix]

theorem get_accumFold (op : Int → Int → Int) (l : List ((Nat × Nat) × Int))
    (acc : SparseMatrix) (hnd : (l.map Prod.fst).Nodup) (i j : Nat) :
    getMatrixElement (accumFold op l acc) i j =
      match lookupElem l (i, j) with
      | some v => op (getMatrixElement acc i j) v
      | none => getMatrixElement acc i j := by
  induction l generalizing acc with
  | nil => rfl
  | cons e rest ih =>
    rw [List.map_cons, List.nodup_cons] at hnd
    have hnotin : e.1 ∉ rest.map Prod.fst := hnd.1
    have hndr : (rest.map Prod.fst).Nodup := hnd.2
    simp only [accumFold, List.foldl_cons]
    rw [show (rest.foldl (fun acc e =>
        setMatrixElement acc e.1.1 e.1.2
          (op (getMatrixElement acc e.1.1 e.1.2) e.2)) _) = accumFold op rest _ from rfl]
    rw [ih _ hndr]
    by_cases hik : (i, j) = e.1
    · have hrest : lookupElem rest (i, j) = none := by
        rw [hik]; exact lookupElem_eq_none_of_not_mem hnotin
      rw [hrest]
      simp only [lookupElem, if_pos hik.symm]
      rw [getMatrixElement_set]
      have : i = e.1.1 ∧ j = e.1.2 := by
        constructor <;> [exact congrArg Prod.fst hik; exact congrArg Prod.snd hik]
      rw [if_pos this, this.1, this.2]
    · have hcons : lookupElem (e :: rest) (i, j) = lookupElem rest (i, j) := by
        show (if e.1 = (i, j) then some e.2 else lookupElem rest (i, j)) = _
        rw [if_neg (fun h => hik h.symm)]
      rw [hcons]
      have hset : getMatrixElement (setMatrixElement acc e.1.1 e.1.2
          (op (getMatrixElement acc e.1.1 e.1.2) e.2)) i j = getMatrixElement acc i j := by
        rw [getMatrixElement_set, if_neg]
        intro hc
        exact hik (Prod.ext hc.1 hc.2)
      cases lookupElem rest (i, j) <;> simp [hset]

theorem addMatrices_ok {m1 m2 : SparseMatrix} (h1 : wfM m1) (h2 : wfM m2)
    (hr : m1.rows = m2.rows) (hc : m1.cols = m2.cols) :
    ∃ res, addMatrices m1 m2 = .ok res ∧ res.rows = m1.rows ∧
      res.cols = m1.cols ∧ wfM res ∧
      ∀ i j, getMatrixElement res i j =
        getMatrixElement m1 i j + getMatrixElement m2 i j := by
  refine ⟨accumFold (· + ·) m2.elements
      (copyFold m1.elements (createSparseMatrix m1.rows m1.cols)), ?_, ?_, ?_, ?_, ?_⟩
  · unfold addMatrices
    rw [if_neg (by simp [hr, hc])]
  · rw [rows_accumFold, rows_copyFold]
    show (m2.elements.foldl _ (m1.elements.foldl _ (m1.rows)) = _)
    rw [foldl_max_eq_of_le _ _ _ (fun e he => (h1.2 e he).1),
      foldl_max_eq_of_le _ _ _ (fun e he => by have := (h2.2 e he).1; omega)]
  · rw [cols_accumFold, cols_copyFold]
    show (m2.elements.foldl _ (m1.elements.foldl _ (m1.cols)) = _)
    rw [foldl_max_eq_of_le _ _ _ (fun e he => (h1.2 e he).2),
      foldl_max_eq_of_le _ _ _ (fun e he => by have := (h2.2 e he).2; omega)]
  · exact wfM_accumFold _ _ (wfM_copyFold _ (wfM_create _ _))
  · intro i j
    rw [get_accumFold _ _ _ h2.1]
    rcases hl : lookupElem m2.elements (i, j) with _ | v
    · have : getMatrixElement m2 i j = 0 := by simp [getMatrixElement, hl]
      simp only [get_copyFold_create _ h1.1, this, add_zero]
    · have : getMatrixElement m2 i j = v := by simp [getMatrixElement, hl]
      simp only [get_copyFold_create _ h1.1, this]

theorem subtractMatrices_ok {m1 m2 : SparseMatrix} (h1 : wfM m1) (h2 : wfM m2)
    (hr : m1.rows = m2.rows) (hc : m1.cols = m2.cols) :
    ∃ res, subtractMatrices m1 m2 = .ok res ∧ res.rows = m1.rows ∧
      res.cols = m1.cols ∧ wfM res ∧
      ∀ i j, getMatrixElement res i j =
        getMatrixElement m1 i j - getMatrixElement m2 i j := by
  refine ⟨accumFold (· - ·) m2.elements
      (copyFold m1.elements (createSparseMatrix m1.rows m1.cols)), ?_, ?_, ?_, ?_, ?_⟩
  · unfold subtractMatrices
    rw [if_neg (by simp [hr, hc])]
  · rw [rows_accumFold, rows_copyFold]
    show (m2.elements.foldl _ (m1.elements.foldl _ (m1.rows)) = _)
    rw [foldl_max_eq_of_le _ _ _ (fun e he => (h1.2 e he).1),
      foldl_max_eq_of_le _ _ _ (fun e he => by have := (h2.2 e he).1; omega)]
  · rw [cols_accumFold, cols_copyFold]
    show (m2.elements.foldl _ (m1.elements.foldl _ (m1.cols)) = _)
    rw [foldl_max_eq_of_le _ _ _ (fun e he => (h1.2 e he).2),
      foldl_max_eq_of_le _ _ _ (fun e he => by have := (h2.2 e he).2; omega)]
  · exact wfM_accumFold _ _ (wfM_copyFold _ (wfM_create _ _))
  · intro i j
    rw [get_accumFold _ _ _ h2.1]
    rcases hl : lookupElem m2.elements (i, j) with _ | v
    · have : getMatrixElement m2 i j = 0 := by simp [getMatrixElement, hl]
      simp only [get_copyFold_create _ h1.1, this, sub_zero]
    · have : getMatrixElement m2 i j = v := by simp [getMatrixElement, hl]
      simp only [get_copyFold_create _ h1.1, this]

/-! ## Lemmas: multiplication -/

theorem get_mulInnerFold (m2 : SparseMatrix) (row col : Nat) (value : Int)
    (n : Nat) (acc : SparseMatrix) : ∀ i j,
    getMatrixElement ((List.range n).foldl (mulInnerStep m2 row col value) acc) i j =
      if i = row ∧ j < n then
        getMatrixElement acc i j + value * getMatrixElement m2 col j
      else getMatrixElement acc i j := by
  induction n with
  | zero => intro i j; simp
  | succ n ih =>
    intro i j
    rw [List.range_succ, List.foldl_append, List.foldl_cons, List.foldl_nil]
    simp only [mulInnerStep]
    by_cases hz : getMatrixElement m2 col n = 0
    · rw [if_neg (by simp [hz]), ih]
      by_cases hij : i = row ∧ j < n
      · rw [if_pos hij, if_pos ⟨hij.1, by omega⟩]
      · rw [if_neg hij]
        by_cases hj : i = row ∧ j < n + 1
        · have hjn : j = n := by omega
          rw [if_pos hj, hjn, hz, mul_zero, add_zero]
        · rw [if_neg hj]
    · rw [if_pos (by simp [hz]), getMatrixElement_set]
      by_cases hij : i = row ∧ j = n
      · rw [if_pos hij, ih row n, if_neg (by omega), if_pos ⟨hij.1, by omega⟩,
          hij.1, hij.2]
      · rw [if_neg hij, ih]
        by_cases h2 : i = row ∧ j < n
        · rw [if_pos h2, if_pos ⟨h2.1, by omega⟩]
        · rw [if_neg h2, if_neg (by omega)]

theorem dims_mulInnerFold (m2 : SparseMatrix) (row col : Nat) (value : Int)
    (n : Nat) : ∀ acc : SparseMatrix, row < acc.rows → n ≤ acc.cols →
    ((List.range n).foldl (mulInnerStep m2 row col value) acc).rows = acc.rows ∧
      ((List.range n).foldl (mulInnerStep m2 row col value) acc).cols = acc.cols := by
  induction n with
  | zero => intro acc _ _; simp
  | succ n ih =>
    intro acc hrow hn
    rw [List.range_succ, List.foldl_append, List.foldl_cons, List.foldl_nil]
    obtain ⟨hr, hc⟩ := ih acc hrow (by omega)
    simp only [mulInnerStep]
    by_cases hz : getMatrixElement m2 col n = 0
    · rw [if_neg (by simp [hz])]
      exact ⟨hr, hc⟩
    · rw [if_pos (by simp [hz])]
      rw [rows_set, cols_set, hr, hc]
      omega

theorem wfM_mulInnerFold (m2 : SparseMatrix) (row col : Nat) (value : Int)
    (n : Nat) : ∀ acc : SparseMatrix, wfM acc →
    wfM ((List.range n).foldl (mulInnerStep m2 row col value) acc) := by
  induction n with
  | zero => intro acc h; simpa using h
  | succ n ih =>
    intro acc h
    rw [List.range_succ, List.foldl_append, List.foldl_cons, List.foldl_nil]
    have hwf := ih acc h
    simp only [mulInnerStep]
    split
    · exact wfM_set hwf _ _ _
    · exact hwf

theorem wfM_mulFold (m2 : SparseMatrix) (l : List ((Nat × Nat) × Int)) :
    ∀ acc : SparseMatrix, wfM acc → wfM (l.foldl (mulStep m2) acc) := by
  induction l with
  | nil => intro acc h; exact h
  | cons e rest ih =>
    intro acc h
    rw [List.foldl_cons]
    exact ih _ (wfM_mulInnerFold m2 e.1.1 e.1.2 e.2 m2.cols acc h)

theorem dims_mulFold (m2 : SparseMatrix) (l : List ((Nat × Nat) × Int)) :
    ∀ acc : SparseMatrix, (∀ e ∈ l, e.1.1 < acc.rows) → acc.cols = m2.cols →
    (l.foldl (mulStep m2) acc).rows = acc.rows ∧
      (l.foldl (mulStep m2) acc).cols = acc.cols := by
  induction l with
  | nil => intro acc _ _; simp
  | cons e rest ih =>
    intro acc hb hcols
    rw [List.foldl_cons]
    have hd := dims_mulInnerFold m2 e.1.1 e.1.2 e.2 m2.cols acc
      (hb e (by simp)) (by omega)
    have := ih (mulStep m2 acc e) (fun e' he' => by
      rw [show mulStep m2 acc e =
        (List.range m2.cols).foldl (mulInnerStep m2 e.1.1 e.1.2 e.2) acc from rfl, hd.1]
      exact hb e' (by simp [he']))
      (by rw [show mulStep m2 acc e =
        (List.range m2.cols).foldl (mulInnerStep m2 e.1.1 e.1.2 e.2) acc from rfl, hd.2,
        hcols])
    rw [this.1, this.2]
    exact ⟨hd.1, hd.2⟩

theorem get_mulFold (m2 : SparseMatrix) (l : List ((Nat × Nat) × Int)) :
    ∀ (acc : SparseMatrix) (i j : Nat),
    getMatrixElement (l.foldl (mulStep m2) acc) i j =
      getMatrixElement acc i j +
        if j < m2.cols then
          (l.map (fun e =>
            if e.1.1 = i then e.2 * getMatrixElement m2 e.1.2 j else 0)).sum
        else 0 := by
  induction l with
  | nil => intro acc i j; simp
  | cons e rest ih =>
    intro acc i j
    rw [List.foldl_cons, ih]
    have hstep : getMatrixElement (mulStep m2 acc e) i j =
        getMatrixElement acc i j +
          if e.1.1 = i ∧ j < m2.cols then e.2 * getMatrixElement m2 e.1.2 j
          else 0 := by
      rw [show mulStep m2 acc e =
        (List.range m2.cols).foldl (mulInnerStep m2 e.1.1 e.1.2 e.2) acc from rfl]
      rw [get_mulInnerFold]
      by_cases h : i = e.1.1 ∧ j < m2.cols
      · rw [if_pos h, if_pos ⟨h.1.symm, h.2⟩]
      · rw [if_neg h, if_neg (fun hh => h ⟨hh.1.symm, hh.2⟩), add_zero]
    rw [hstep]
    by_cases hj : j < m2.cols
    · rw [if_pos hj, if_pos hj, List.map_cons, List.sum_cons]
      by_cases hi : e.1.1 = i
      · rw [if_pos ⟨hi, hj⟩, if_pos hi]; ring
      · rw [if_neg (fun hh => hi hh.1), if_neg hi, add_zero, zero_add]
    · rw [if_neg hj, if_neg hj, if_neg (fun hh => hj hh.2), add_zero, add_zero]

theorem sum_contrib_eq (w : Nat → Int) (C : Nat) (i : Nat) :
    ∀ l : List ((Nat × Nat) × Int), (l.map Prod.fst).Nodup →
    (∀ e ∈ l, e.1.2 < C) →
    (l.map (fun e => if e.1.1 = i then e.2 * w e.1.2 else 0)).sum =
      ∑ k ∈ Finset.range C, (lookupElem l (i, k)).getD 0 * w k := by
  intro l
  induction l with
  | nil => intro _ _; simp [lookupElem]
  | cons e t ih =>
    intro hnd hb
    rw [List.map_cons, List.nodup_cons] at hnd
    have hpoint : ∀ k, (lookupElem (e :: t) (i, k)).getD 0 * w k =
        (lookupElem t (i, k)).getD 0 * w k +
          if k = e.1.2 then (if e.1.1 = i then e.2 * w e.1.2 else 0) else 0 := by
      intro k
      by_cases hk : e.1 = (i, k)
      · have hit : lookupElem t (i, k) = none := by
          rw [← hk]; exact lookupElem_eq_none_of_not_mem hnd.1
        have h1 : e.1.1 = i := by rw [hk]
        have h2 : k = e.1.2 := by rw [hk]
        have hcons : lookupElem (e :: t) (i, k) = some e.2 := by
          simp only [lookupElem, if_pos hk]
        rw [hcons, hit, if_pos h2, if_pos h1, h2]
        simp
      · simp only [lookupElem, if_neg hk]
        by_cases hk2 : k = e.1.2
        · by_cases h1 : e.1.1 = i
          · exact absurd (Prod.ext h1 hk2.symm) hk
          · rw [if_pos hk2, if_neg h1, add_zero]
        · rw [if_neg hk2, add_zero]
    calc (List.map (fun e => if e.1.1 = i then e.2 * w e.1.2 else 0) (e :: t)).sum
        = (if e.1.1 = i then e.2 * w e.1.2 else 0) +
            (t.map (fun e => if e.1.1 = i then e.2 * w e.1.2 else 0)).sum := by
          rw [List.map_cons, List.sum_cons]
      _ = (if e.1.1 = i then e.2 * w e.1.2 else 0) +
            ∑ k ∈ Finset.range C, (lookupElem t (i, k)).getD 0 * w k := by
          rw [ih hnd.2 (fun e' he' => hb e' (by simp [he']))]
      _ = ∑ k ∈ Finset.range C, (lookupElem (e :: t) (i, k)).getD 0 * w k := by
          rw [Finset.sum_congr rfl (fun k _ => hpoint k), Finset.sum_add_distrib,
            Finset.sum_ite_eq' (Finset.range C) e.1.2
              (fun _ => if e.1.1 = i then e.2 * w e.1.2 else 0),
            if_pos (Finset.mem_range.mpr (hb e (by simp)))]
          ring

theorem multiplyMatrices_ok {m1 m2 : SparseMatrix} (h1 : wfM m1)
    (hdim : m1.cols = m2.rows) :
    ∃ res, multiplyMatrices m1 m2 = .ok res ∧ res.rows = m1.rows ∧
      res.cols = m2.cols ∧ wfM res ∧
      ∀ i j, getMatrixElement res i j =
        if j < m2.cols then
          ∑ k ∈ Finset.range m1.cols,
            getMatrixElement m1 i k * getMatrixElement m2 k j
        else 0 := by
  refine ⟨m1.elements.foldl (mulStep m2) (createSparseMatrix m1.rows m2.cols),
    ?_, ?_, ?_, ?_, ?_⟩
  · unfold multiplyMatrices
    rw [if_neg (by simp [hdim])]
  · exact (dims_mulFold m2 m1.elements (createSparseMatrix m1.rows m2.cols)
      (fun e he => (h1.2 e he).1) rfl).1
  · exact (dims_mulFold m2 m1.elements (createSparseMatrix m1.rows m2.cols)
      (fun e he => (h1.2 e he).1) rfl).2
  · exact wfM_mulFold m2 m1.elements _ (wfM_create _ _)
  · intro i j
    rw [get_mulFold, getMatrixElement_create, zero_add]
    by_cases hj : j < m2.cols
    · rw [if_pos hj, if_pos hj,
        sum_contrib_eq (fun x => getMatrixElement m2 x j) m1.cols i m1.elements
          h1.1 (fun e he => (h1.2 e he).2)]
      rfl
    · rw [if_neg hj, if_neg hj]

theorem get_mulInnerFoldNoSkip (m2 : SparseMatrix) (row col : Nat) (value : Int)
    (n : Nat) (acc : SparseMatrix) : ∀ i j,
    getMatrixElement
        ((List.range n).foldl (mulInnerStepNoSkip m2 row col value) acc) i j =
      if i = row ∧ j < n then
        getMatrixElement acc i j + value * getMatrixElement m2 col j
      else getMatrixElement acc i j := by
  induction n with
  | zero => intro i j; simp
  | succ n ih =>
    intro i j
    rw [List.range_succ, List.foldl_append, List.foldl_cons, List.foldl_nil]
    simp only [mulInnerStepNoSkip]
    rw [getMatrixElement_set]
    by_cases hij : i = row ∧ j = n
    · rw [if_pos hij, ih row n, if_neg (by omega), if_pos ⟨hij.1, by omega⟩,
        hij.1, hij.2]
    · rw [if_neg hij, ih]
      by_cases h2 : i = row ∧ j < n
      · rw [if_pos h2, if_pos ⟨h2.1, by omega⟩]
      · rw [if_neg h2, if_neg (by omega)]

theorem get_mulFoldNoSkip (m2 : SparseMatrix) (l : List ((Nat × Nat) × Int)) :
    ∀ (acc : SparseMatrix) (i j : Nat),
    getMatrixElement (l.foldl (mulStepNoSkip m2) acc) i j =
      getMatrixElement acc i j +
        if j < m2.cols then
          (l.map (fun e =>
            if e.1.1 = i then e.2 * getMatrixElement m2 e.1.2 j else 0)).sum
        else 0 := by
  induction l with
  | nil => intro acc i j; simp
  | cons e rest ih =>
    intro acc i j
    rw [List.foldl_cons, ih]
    have hstep : getMatrixElement (mulStepNoSkip m2 acc e) i j =
        getMatrixElement acc i j +
          if e.1.1 = i ∧ j < m2.cols then e.2 * getMatrixElement m2 e.1.2 j
          else 0 := by
      rw [show mulStepNoSkip m2 acc e =
        (List.range m2.cols).foldl (mulInnerStepNoSkip m2 e.1.1 e.1.2 e.2) acc from rfl]
      rw [get_mulInnerFoldNoSkip]
      by_cases h : i = e.1.1 ∧ j < m2.cols
      · rw [if_pos h, if_pos ⟨h.1.symm, h.2⟩]
      · rw [if_neg h, if_neg (fun hh => h ⟨hh.1.symm, hh.2⟩), add_zero]
    rw [hstep]
    by_cases hj : j < m2.cols
    · rw [if_pos hj, if_pos hj, List.map_cons, List.sum_cons]
      by_cases hi : e.1.1 = i
      · rw [if_pos ⟨hi, hj⟩, if_pos hi]; ring
      · rw [if_neg (fun hh => hi hh.1), if_neg hi, add_zero, zero_add]
    · rw [if_neg hj, if_neg hj, if_neg (fun hh => hj hh.2), add_zero, add_zero]

theorem multiplyNoSkip_get_eq (m1 m2 : SparseMatrix) (hdim : m1.cols = m2.rows) :
    ∃ res res', multiplyMatrices m1 m2 = .ok res ∧
      multiplyMatricesNoSkip m1 m2 = .ok res' ∧
      ∀ i j, getMatrixElement res' i j = getMatrixElement res i j := by
  refine ⟨m1.elements.foldl (mulStep m2) (createSparseMatrix m1.rows m2.cols),
    m1.elements.foldl (mulStepNoSkip m2) (createSparseMatrix m1.rows m2.cols),
    ?_, ?_, ?_⟩
  · unfold multiplyMatrices
    rw [if_neg (by simp [hdim])]
  · unfold multiplyMatricesNoSkip
    rw [if_neg (by simp [hdim])]
  · intro i j
    rw [get_mulFold, get_mulFoldNoSkip]

/-! ## Lemmas: characters and digit strings -/

theorem not_ws_of_isDigit {c : Char} (h : c.isDigit = true) :
    c.isWhitespace = false := by
  simp only [Char.isDigit, Bool.and_eq_true, decide_eq_true_eq] at h
  simp only [Char.isWhitespace, Bool.or_eq_false_iff, decide_eq_false_iff_not]
  refine ⟨⟨⟨?_, ?_⟩, ?_⟩, ?_⟩ <;> rintro rfl <;> revert h <;> decide

theorem ne_newline_of_isDigit {c : Char} (h : c.isDigit = true) : c ≠ '\n' := by
  rintro rfl
  revert h
  decide

theorem digitChar_isDigit (n : Nat) : (digitChar n).isDigit = true := by
  unfold digitChar
  split <;> decide

theorem digitChar_toNat {n : Nat} (h : n < 10) : (digitChar n).toNat - 48 = n := by
  have h10 : n = 0 ∨ n = 1 ∨ n = 2 ∨ n = 3 ∨ n = 4 ∨ n = 5 ∨ n = 6 ∨ n = 7 ∨
      n = 8 ∨ n = 9 := by omega
  rcases h10 with rfl | rfl | rfl | rfl | rfl | rfl | rfl | rfl | rfl | rfl <;> decide

theorem natDigits_ne_nil (n : Nat) : natDigits n ≠ [] := by
  rw [natDigits]
  split <;> simp

theorem natDigits_all_digit (n : Nat) : ∀ c ∈ natDigits n, c.isDigit = true := by
  induction n using Nat.strong_induction_on with
  | _ n ih =>
    rw [natDigits]
    split
    · intro c hc
      rw [List.mem_singleton] at hc
      subst hc
      exact digitChar_isDigit n
    · intro c hc
      rw [List.mem_append] at hc
      rcases hc with hc | hc
      · next h => exact ih (n / 10) (Nat.div_lt_self (by omega) (by omega)) c hc
      · rw [List.mem_singleton] at hc
        subst hc
        exact digitChar_isDigit _

theorem digitsToNat_append (xs : List Char) (c : Char) :
    digitsToNat (xs ++ [c]) = 10 * digitsToNat xs + (c.toNat - 48) := by
  unfold digitsToNat
  rw [List.foldl_append, List.foldl_cons, List.foldl_nil]
  omega

theorem digitsToNat_natDigits (n : Nat) : digitsToNat (natDigits n) = n := by
  induction n using Nat.strong_induction_on with
  | _ n ih =>
    rw [natDigits]
    split
    · next h =>
      show digitsToNat [digitChar n] = n
      unfold digitsToNat
      rw [List.foldl_cons, List.foldl_nil]
      have := digitChar_toNat h
      omega
    · next h =>
      rw [digitsToNat_append, ih (n / 10) (Nat.div_lt_self (by omega) (by omega)),
        digitChar_toNat (Nat.mod_lt _ (by omega))]
      omega

theorem takeWhile_append_all {p : Char → Bool} :
    ∀ ds rest : List Char, (∀ c ∈ ds, p c = true) →
    (ds ++ rest).takeWhile p = ds ++ rest.takeWhile p := by
  intro ds
  induction ds with
  | nil => intro rest _; simp
  | cons d t ih =>
    intro rest h
    rw [List.cons_append, List.takeWhile_cons, if_pos (h d (by simp)),
      ih rest (fun c hc => h c (by simp [hc])), List.cons_append]

theorem dropWhile_append_all {p : Char → Bool} :
    ∀ ds rest : List Char, (∀ c ∈ ds, p c = true) →
    (ds ++ rest).dropWhile p = rest.dropWhile p := by
  intro ds
  induction ds with
  | nil => intro rest _; simp
  | cons d t ih =>
    intro rest h
    rw [List.cons_append, List.dropWhile_cons, if_pos (h d (by simp)),
      ih rest (fun c hc => h c (by simp [hc]))]

theorem takeWhile_nil_of_head {p : Char → Bool} (l : List Char)
    (h : ∀ c, l.head? = some c → p c = false) : l.takeWhile p = [] := by
  cases l with
  | nil => rfl
  | cons c t => rw [List.takeWhile_cons, if_neg (by simp [h c rfl])]

theorem dropWhile_self_of_head {p : Char → Bool} (l : List Char)
    (h : ∀ c, l.head? = some c → p c = false) : l.dropWhile p = l := by
  cases l with
  | nil => rfl
  | cons c t => rw [List.dropWhile_cons, if_neg (by simp [h c rfl])]

theorem spanDigits_digits_append (n : Nat) (rest : List Char)
    (h : ∀ c, rest.head? = some c → c.isDigit = false) :
    spanDigits (natDigits n ++ rest) = (natDigits n, rest) := by
  unfold spanDigits
  rw [takeWhile_append_all _ _ (natDigits_all_digit n),
    dropWhile_append_all _ _ (natDigits_all_digit n),
    takeWhile_nil_of_head _ h, dropWhile_self_of_head _ h, List.append_nil]

theorem parseHeader_digits (pre : List Char) (n : Nat) :
    parseHeader pre (pre ++ natDigits n) = some n := by
  unfold parseHeader
  rw [List.take_left, if_pos rfl, List.drop_left]
  have hspan : spanDigits (natDigits n) = (natDigits n, []) := by
    have := spanDigits_digits_append n [] (by intro c hc; cases hc)
    simpa using this
  simp only [hspan]
  rw [if_neg (natDigits_ne_nil n), digitsToNat_natDigits]

/-! ## Lemmas: trimming, splitting, joining -/

theorem trimChars_eq_self {cs : List Char}
    (h1 : ∀ c, cs.head? = some c → c.isWhitespace = false)
    (h2 : ∀ c, cs.getLast? = some c → c.isWhitespace = false) :
    trimChars cs = cs := by
  unfold trimChars
  rw [dropWhile_self_of_head cs h1]
  have hrev : cs.reverse.dropWhile Char.isWhitespace = cs.reverse := by
    apply dropWhile_self_of_head
    intro c hc
    apply h2
    rwa [List.head?_reverse] at hc
  rw [hrev, List.reverse_reverse]

theorem trimChars_append_newline {cs : List Char}
    (h1 : ∀ c, cs.head? = some c → c.isWhitespace = false)
    (h2 : ∀ c, cs.getLast? = some c → c.isWhitespace = false)
    (hne : cs ≠ []) : trimChars (cs ++ ['\n']) = cs := by
  unfold trimChars
  obtain ⟨a, t, rfl⟩ : ∃ a t, cs = a :: t := by
    cases cs with
    | nil => exact absurd rfl hne
    | cons a t => exact ⟨a, t, rfl⟩
  rw [List.cons_append, List.dropWhile_cons, if_neg (by simp [h1 a rfl])]
  have hrev : (a :: (t ++ ['\n'])).reverse = '\n' :: (a :: t).reverse := by
    rw [← List.cons_append, List.reverse_append]
    simp
  rw [hrev, List.dropWhile_cons, if_pos (by decide)]
  have : (a :: t).reverse.dropWhile Char.isWhitespace = (a :: t).reverse := by
    apply dropWhile_self_of_head
    intro c hc
    apply h2
    rwa [List.head?_reverse] at hc
  rw [this, List.reverse_reverse]

theorem splitNewline_no_newline (cs : List Char) (h : ∀ c ∈ cs, c ≠ '\n') :
    splitNewline cs = [cs] := by
  induction cs with
  | nil => rfl
  | cons c t ih =>
    simp only [splitNewline]
    rw [if_neg (h c (by simp)), ih (fun c' hc' => h c' (by simp [hc']))]

theorem splitNewline_append (s t : List Char) (h : ∀ c ∈ s, c ≠ '\n') :
    splitNewline (s ++ '\n' :: t) = s :: splitNewline t := by
  induction s with
  | nil => simp [splitNewline]
  | cons c s' ih =>
    rw [List.cons_append]
    simp only [splitNewline]
    rw [if_neg (h c (by simp)), ih (fun c' hc' => h c' (by simp [hc']))]

theorem unlines_eq_sepJoin : ∀ ls : List (List Char), ls ≠ [] →
    unlines ls = sepJoin ls ++ ['\n'] := by
  intro ls
  induction ls with
  | nil => intro h; exact absurd rfl h
  | cons l rest ih =>
    intro _
    cases rest with
    | nil => simp [unlines, sepJoin]
    | cons x y =>
      have := ih (by simp)
      simp only [unlines, List.map_cons, List.flatten_cons] at this ⊢
      rw [this]
      simp [sepJoin, List.append_assoc]

theorem splitNewline_sepJoin : ∀ ls : List (List Char), ls ≠ [] →
    (∀ l ∈ ls, ∀ c ∈ l, c ≠ '\n') → splitNewline (sepJoin ls) = ls := by
  intro ls
  induction ls with
  | nil => intro h; exact absurd rfl h
  | cons l rest ih =>
    intro _ h
    cases rest with
    | nil => exact splitNewline_no_newline l (h l (by simp))
    | cons x y =>
      show splitNewline (l ++ '\n' :: sepJoin (x :: y)) = _
      rw [splitNewline_append _ _ (h l (by simp)),
        ih (by simp) (fun l' hl' => h l' (by simp [hl']))]

theorem sepJoin_head_good : ∀ ls : List (List Char), ls ≠ [] →
    (∀ l ∈ ls, GoodLine l) →
    ∀ c, (sepJoin ls).head? = some c → c.isWhitespace = false := by
  intro ls
  induction ls with
  | nil => intro h; exact absurd rfl h
  | cons l rest ih =>
    intro _ hg c hc
    obtain ⟨⟨a, ha, haws⟩, _, _⟩ := hg l (by simp)
    cases rest with
    | nil =>
      rw [show sepJoin [l] = l from rfl, ha] at hc
      cases hc
      exact haws
    | cons x y =>
      rw [show sepJoin (l :: x :: y) = l ++ '\n' :: sepJoin (x :: y) from rfl,
        List.head?_append, ha] at hc
      cases hc
      exact haws

theorem sepJoin_getLast_good : ∀ ls : List (List Char), ls ≠ [] →
    (∀ l ∈ ls, GoodLine l) →
    ∀ c, (sepJoin ls).getLast? = some c → c.isWhitespace = false := by
  intro ls
  induction ls with
  | nil => intro h; exact absurd rfl h
  | cons l rest ih =>
    intro _ hg c hc
    cases rest with
    | nil =>
      obtain ⟨_, ⟨b, hb, hbws⟩, _⟩ := hg l (by simp)
      rw [show sepJoin [l] = l from rfl, hb] at hc
      cases hc
      exact hbws
    | cons x y =>
      rw [show sepJoin (l :: x :: y) = l ++ '\n' :: sepJoin (x :: y) from rfl,
        List.getLast?_append] at hc
      have hxy : ∃ b, (sepJoin (x :: y)).getLast? = some b ∧ b.isWhitespace = false := by
        obtain ⟨_, ⟨b0, hb0, hb0ws⟩, _⟩ := hg x (by simp)
        rcases hlast : (sepJoin (x :: y)).getLast? with _ | b
        · exfalso
          rw [List.getLast?_eq_none_iff] at hlast
          cases y with
          | nil => rw [show sepJoin [x] = x from rfl] at hlast; simp [hlast] at hb0
          | cons z w =>
            rw [show sepJoin (x :: z :: w) = x ++ '\n' :: sepJoin (z :: w) from rfl]
              at hlast
            simp at hlast
        · exact ⟨b, rfl, ih (by simp) (fun l' hl' => hg l' (by simp [hl'])) b hlast⟩
      obtain ⟨b, hb, hbws⟩ := hxy
      rw [show ('\n' :: sepJoin (x :: y)).getLast? =
          (['\n'] ++ sepJoin (x :: y)).getLast? from rfl,
        List.getLast?_append, hb] at hc
      cases hc
      exact hbws

theorem sepJoin_ne_nil : ∀ ls : List (List Char), ls ≠ [] →
    (∀ l ∈ ls, GoodLine l) → sepJoin ls ≠ [] := by
  intro ls
  induction ls with
  | nil => intro h; exact absurd rfl h
  | cons l rest ih =>
    intro _ hg
    obtain ⟨⟨a, ha, _⟩, _, _⟩ := hg l (by simp)
    cases rest with
    | nil =>
      show l ≠ []
      intro hl
      rw [hl] at ha
      cases ha
    | cons x y =>
      show l ++ '\n' :: sepJoin (x :: y) ≠ []
      simp

theorem splitNewline_trim_unlines (ls : List (List Char)) (hne : ls ≠ [])
    (hg : ∀ l ∈ ls, GoodLine l) :
    splitNewline (trimChars (unlines ls)) = ls := by
  rw [unlines_eq_sepJoin ls hne,
    trimChars_append_newline (sepJoin_head_good ls hne hg)
      (sepJoin_getLast_good ls hne hg) (sepJoin_ne_nil ls hne hg)]
  apply splitNewline_sepJoin ls hne
  intro l hl c hc
  exact (hg l hl).2.2 c hc

/-! ## Lemmas: the parser -/

theorem parseElementLine_nil : parseElementLine [] = none := rfl

theorem parseElements_ok : ∀ (lines : List (List Char)) (i : Nat) (m : SparseMatrix),
    (∀ l ∈ lines, trimChars l = [] ∨ (parseElementLine (trimChars l)).isSome = true) →
    parseElements lines i m =
      .ok (copyFold ((lines.filterMap lineTriple).map tripleEntry) m) := by
  intro lines
  induction lines with
  | nil => intro i m _; rfl
  | cons l rest ih =>
    intro i m h
    rcases h l (by simp) with hblank | hsome
    · rw [parseElements, if_pos hblank,
        ih (i + 1) m (fun l' hl' => h l' (by simp [hl']))]
      have : lineTriple l = none := by
        rw [lineTriple, hblank, parseElementLine_nil]
      rw [List.filterMap_cons, this]
    · rcases hp : parseElementLine (trimChars l) with _ | t
      · rw [hp] at hsome
        cases hsome
      · have htne : ¬ trimChars l = [] := by
          intro h0
          rw [h0, parseElementLine_nil] at hp
          cases hp
        have htrip : lineTriple l = some t := by rw [lineTriple, hp]
        rw [parseElements, if_neg htne, hp, List.filterMap_cons, htrip,
          List.map_cons,
          show copyFold (tripleEntry t :: (rest.filterMap lineTriple).map tripleEntry) m
            = copyFold ((rest.filterMap lineTriple).map tripleEntry)
                (setMatrixElement m t.1 t.2.1 t.2.2) from rfl]
        exact ih (i + 1) _ (fun l' hl' => h l' (by simp [hl']))

theorem parseElements_isError : ∀ (lines : List (List Char)) (i : Nat) (m : SparseMatrix),
    exceptIsError (parseElements lines i m) =
      lines.any (fun l =>
        trimChars l ≠ [] && (parseElementLine (trimChars l)).isNone) := by
  intro lines
  induction lines with
  | nil => intro i m; rfl
  | cons l rest ih =>
    intro i m
    rw [List.any_cons, parseElements]
    by_cases hbl : trimChars l = []
    · rw [if_pos hbl, ih]
      simp [hbl]
    · rw [if_neg hbl]
      rcases hp : parseElementLine (trimChars l) with _ | t
      · simp [exceptIsError, hbl, hp]
      · rw [ih]
        simp [hbl, hp]

theorem parseElements_error_form :
    ∀ (lines : List (List Char)) (i : Nat) (m : SparseMatrix) (e : MatrixError),
    parseElements lines i m = .error e → ∃ n, e = .invalidElement n := by
  intro lines
  induction lines with
  | nil => intro i m e h; cases h
  | cons l rest ih =>
    intro i m e h
    rw [parseElements] at h
    by_cases hbl : trimChars l = []
    · rw [if_pos hbl] at h
      exact ih (i + 1) m e h
    · rw [if_neg hbl] at h
      rcases hp : parseElementLine (trimChars l) with _ | t <;> rw [hp] at h
      · injection h with h2
        exact ⟨i + 1, h2.symm⟩
      · exact ih (i + 1) _ e h

theorem parseMatrix_eq {text l0 l1 : List Char} {rest : List (List Char)}
    (hsplit : splitNewline text = l0 :: l1 :: rest) {R C : Nat}
    (hrow : parseHeader "rows=".data (trimChars l0) = some R)
    (hcol : parseHeader "cols=".data (trimChars l1) = some C)
    (hlines : ∀ l ∈ rest,
      trimChars l = [] ∨ (parseElementLine (trimChars l)).isSome = true) :
    parseMatrix text = .ok (copyFold ((rest.filterMap lineTriple).map tripleEntry)
      (createSparseMatrix R C)) := by
  unfold parseMatrix
  rw [hsplit, parseMatrixLines, hrow, hcol]
  exact parseElements_ok rest 2 _ hlines

theorem parseMatrix_fails_iff (text : List Char) :
    exceptIsError (parseMatrix text) = specParseFailsPrefix text := by
  unfold parseMatrix specParseFailsPrefix
  rcases hsplit : splitNewline text with _ | ⟨l0, _ | ⟨l1, rest⟩⟩
  · rfl
  · rfl
  · rw [parseMatrixLines, specParseFailsPrefixLines]
    rcases hrow : parseHeader "rows=".data (trimChars l0) with _ | R
    · simp only [hrow, Option.isNone_none, Bool.true_or]
      rfl
    · rcases hcol : parseHeader "cols=".data (trimChars l1) with _ | C
      · simp only [hrow, hcol, Option.isNone_none, Option.isNone_some,
          Bool.false_or, Bool.true_or]
        rfl
      · simp only [Option.isNone_some, Bool.false_or]
        exact parseElements_isError rest 2 _

theorem parseMatrix_error_format (text : List Char) (e : MatrixError)
    (h : parseMatrix text = .error e) : e.isFormatError = true := by
  unfold parseMatrix at h
  rcases hsplit : splitNewline text with _ | ⟨l0, _ | ⟨l1, rest⟩⟩ <;> rw [hsplit] at h
  · cases h; rfl
  · cases h; rfl
  · rw [parseMatrixLines] at h
    rcases hrow : parseHeader "rows=".data (trimChars l0) with _ | R <;> rw [hrow] at h
    · cases h; rfl
    · rcases hcol : parseHeader "cols=".data (trimChars l1) with _ | C <;> rw [hcol] at h
      · cases h; rfl
      · obtain ⟨n, rfl⟩ := parseElements_error_form rest 2 _ e h
        rfl

/-! ## Lemmas: serialization round trip -/

theorem natDigits_head_digit (n : Nat) :
    ∀ c, (natDigits n).head? = some c → c.isDigit = true := by
  intro c hc
  apply natDigits_all_digit n
  rcases hd : natDigits n with _ | ⟨a, t⟩
  · rw [hd] at hc; cases hc
  · rw [hd] at hc
    cases hc
    simp

theorem parseSignedInt_digits (m : Nat) (rest : List Char)
    (h : ∀ c, rest.head? = some c → c.isDigit = false) :
    parseSignedInt (natDigits m ++ rest) = some ((m : Int), rest) := by
  rcases hd : natDigits m with _ | ⟨a, t⟩
  · exact absurd hd (natDigits_ne_nil m)
  · have ha : a.isDigit = true := by
      apply natDigits_all_digit m
      rw [hd]; simp
    rw [List.cons_append, parseSignedInt]
    rw [if_neg (by rintro rfl; revert ha; decide)]
    rw [← List.cons_append, ← hd]
    have hspan := spanDigits_digits_append m rest h
    simp only [hspan]
    rw [if_neg (natDigits_ne_nil m), digitsToNat_natDigits]

theorem parseSignedInt_intChars (v : Int) (rest : List Char)
    (h : ∀ c, rest.head? = some c → c.isDigit = false) :
    parseSignedInt (intChars v ++ rest) = some (v, rest) := by
  unfold intChars
  by_cases hv : v < 0
  · rw [if_pos hv, List.cons_append, parseSignedInt, if_pos rfl]
    have hspan := spanDigits_digits_append v.natAbs rest h
    simp only [hspan]
    rw [if_neg (natDigits_ne_nil _), digitsToNat_natDigits]
    have hva : -(v.natAbs : Int) = v := by omega
    rw [hva]
  · rw [if_neg hv]
    have hvt : ((v.toNat : Int), rest) = (v, rest) := by
      have : (v.toNat : Int) = v := by omega
      rw [this]
    rw [parseSignedInt_digits v.toNat rest h, hvt]

theorem intChars_ne_nil (v : Int) : intChars v ≠ [] := by
  unfold intChars
  split
  · simp
  · exact natDigits_ne_nil _

theorem intChars_head_not_ws (v : Int) :
    ∀ x, (intChars v).head? = some x → x.isWhitespace = false := by
  intro x hx
  unfold intChars at hx
  by_cases hv : v < 0
  · rw [if_pos hv, List.head?_cons] at hx
    cases hx
    decide
  · rw [if_neg hv] at hx
    exact not_ws_of_isDigit (natDigits_head_digit _ x hx)

theorem parseElementLine_elem (r c : Nat) (v : Int) :
    parseElementLine ('(' :: (natDigits r ++ ',' :: ' ' ::
      (natDigits c ++ ',' :: ' ' :: (intChars v ++ [')'])))) = some (r, c, v) := by
  rw [parseElementLine, if_pos rfl]
  have hs1 := spanDigits_digits_append r
    (',' :: ' ' :: (natDigits c ++ ',' :: ' ' :: (intChars v ++ [')'])))
    (by intro x hx; cases hx; decide)
  simp only [hs1]
  rw [if_neg (natDigits_ne_nil r)]
  simp only [if_true]
  have hws : (' ' :: (natDigits c ++ ',' :: ' ' :: (intChars v ++ [')']))).dropWhile
      Char.isWhitespace = natDigits c ++ ',' :: ' ' :: (intChars v ++ [')']) := by
    rw [List.dropWhile_cons, if_pos (by decide)]
    apply dropWhile_self_of_head
    intro x hx
    rcases hd : natDigits c with _ | ⟨a, t⟩
    · exact absurd hd (natDigits_ne_nil c)
    · rw [hd, List.cons_append, List.head?_cons] at hx
      cases hx
      exact not_ws_of_isDigit (natDigits_head_digit c x (by rw [hd]; rfl))
  simp only [hws]
  have hs2 := spanDigits_digits_append c (',' :: ' ' :: (intChars v ++ [')']))
    (by intro x hx; cases hx; decide)
  simp only [hs2]
  rw [if_neg (natDigits_ne_nil c)]
  simp only [if_true]
  have hws2 : (' ' :: (intChars v ++ [')'])).dropWhile Char.isWhitespace =
      intChars v ++ [')'] := by
    rw [List.dropWhile_cons, if_pos (by decide)]
    apply dropWhile_self_of_head
    intro x hx
    rcases hd : intChars v with _ | ⟨a, t⟩
    · exact absurd hd (intChars_ne_nil v)
    · rw [hd, List.cons_append, List.head?_cons] at hx
      cases hx
      exact intChars_head_not_ws v x (by rw [hd]; rfl)
  simp only [hws2]
  rw [parseSignedInt_intChars v [')'] (by intro x hx; cases hx; decide)]
  simp only [if_true]
  rw [digitsToNat_natDigits, digitsToNat_natDigits]

theorem trim_goodLine {l : List Char} (h : GoodLine l) : trimChars l = l := by
  obtain ⟨⟨a, ha, haws⟩, ⟨b, hb, hbws⟩, _⟩ := h
  apply trimChars_eq_self
  · intro c hc
    rw [ha] at hc
    cases hc
    exact haws
  · intro c hc
    rw [hb] at hc
    cases hc
    exact hbws

theorem goodLine_header (pre : List Char) (n : Nat)
    (h1 : ∃ a, pre.head? = some a ∧ a.isWhitespace = false)
    (h2 : ∀ x ∈ pre, x ≠ '\n') : GoodLine (pre ++ natDigits n) := by
  refine ⟨?_, ?_, ?_⟩
  · obtain ⟨a, ha, haws⟩ := h1
    refine ⟨a, ?_, haws⟩
    rw [List.head?_append, ha]
    rfl
  · rcases hlast : (natDigits n).getLast? with _ | b
    · exact absurd (List.getLast?_eq_none_iff.mp hlast) (natDigits_ne_nil n)
    · refine ⟨b, ?_,
        not_ws_of_isDigit (natDigits_all_digit n b (List.mem_of_mem_getLast? hlast))⟩
      rw [List.getLast?_append, hlast]
      rfl
  · intro x hx
    rw [List.mem_append] at hx
    rcases hx with hx | hx
    · exact h2 x hx
    · exact ne_newline_of_isDigit (natDigits_all_digit n x hx)

theorem intChars_mem_ne_newline (v : Int) : ∀ x ∈ intChars v, x ≠ '\n' := by
  intro x hx
  unfold intChars at hx
  by_cases hv : v < 0
  · rw [if_pos hv, List.mem_cons] at hx
    rcases hx with rfl | hx
    · decide
    · exact ne_newline_of_isDigit (natDigits_all_digit _ x hx)
  · rw [if_neg hv] at hx
    exact ne_newline_of_isDigit (natDigits_all_digit _ x hx)

theorem elementLineChars_eq (e : (Nat × Nat) × Int) :
    elementLineChars e = '(' :: (natDigits e.1.1 ++ ',' :: ' ' ::
      (natDigits e.1.2 ++ ',' :: ' ' :: (intChars e.2 ++ [')']))) := by
  simp [elementLineChars, List.cons_append, List.append_assoc]

theorem goodLine_elem (e : (Nat × Nat) × Int) : GoodLine (elementLineChars e) := by
  refine ⟨⟨'(', rfl, by decide⟩, ?_, ?_⟩
  · refine ⟨')', ?_, by decide⟩
    have hshape : elementLineChars e =
        ('(' :: (natDigits e.1.1 ++ ',' :: ' ' ::
          (natDigits e.1.2 ++ ',' :: ' ' :: intChars e.2))) ++ [')'] := by
      simp [elementLineChars, List.append_assoc]
    rw [hshape, List.getLast?_concat]
  · intro x hx
    have hx' : x = '(' ∨ x ∈ natDigits e.1.1 ∨ x = ',' ∨ x = ' ' ∨
        x ∈ natDigits e.1.2 ∨ x ∈ intChars e.2 ∨ x = ')' := by
      simp only [elementLineChars, List.mem_append, List.mem_cons,
        List.mem_singleton, List.not_mem_nil, or_false] at hx
      tauto
    rcases hx' with rfl | hx' | rfl | rfl | hx' | hx' | rfl
    · decide
    · exact ne_newline_of_isDigit (natDigits_all_digit _ x hx')
    · decide
    · decide
    · exact ne_newline_of_isDigit (natDigits_all_digit _ x hx')
    · exact intChars_mem_ne_newline e.2 x hx'
    · decide

theorem matrixToString_eq_unlines (m : SparseMatrix) :
    matrixToString m = trimChars (unlines
      (("rows=".data ++ natDigits m.rows) :: ("cols=".data ++ natDigits m.cols) ::
        m.elements.map elementLineChars)) := by
  unfold matrixToString unlines
  congr 1
  simp [List.map_map, Function.comp_def, List.append_assoc]

theorem splitNewline_matrixToString (m : SparseMatrix) :
    splitNewline (matrixToString m) =
      ("rows=".data ++ natDigits m.rows) :: ("cols=".data ++ natDigits m.cols) ::
        m.elements.map elementLineChars := by
  rw [matrixToString_eq_unlines]
  apply splitNewline_trim_unlines _ (by simp)
  intro l hl
  rw [List.mem_cons, List.mem_cons] at hl
  rcases hl with rfl | rfl | hl
  · exact goodLine_header _ _ ⟨'r', by decide, by decide⟩ (by decide)
  · exact goodLine_header _ _ ⟨'c', by decide, by decide⟩ (by decide)
  · obtain ⟨e, _, rfl⟩ := List.mem_map.mp hl
    exact goodLine_elem e

theorem lineTriple_elementLineChars (e : (Nat × Nat) × Int) :
    lineTriple (elementLineChars e) = some (e.1.1, e.1.2, e.2) := by
  rw [lineTriple, trim_goodLine (goodLine_elem e), elementLineChars_eq e]
  exact parseElementLine_elem e.1.1 e.1.2 e.2

theorem parseMatrix_matrixToString (m : SparseMatrix) (hm : wfM m) :
    parseMatrix (matrixToString m) = .ok m := by
  have hsplit := splitNewline_matrixToString m
  have hrow : parseHeader "rows=".data
      (trimChars ("rows=".data ++ natDigits m.rows)) = some m.rows := by
    rw [trim_goodLine (goodLine_header _ _ ⟨'r', by decide, by decide⟩ (by decide))]
    exact parseHeader_digits _ m.rows
  have hcol : parseHeader "cols=".data
      (trimChars ("cols=".data ++ natDigits m.cols)) = some m.cols := by
    rw [trim_goodLine (goodLine_header _ _ ⟨'c', by decide, by decide⟩ (by decide))]
    exact parseHeader_digits _ m.cols
  have hlines : ∀ l ∈ m.elements.map elementLineChars,
      trimChars l = [] ∨ (parseElementLine (trimChars l)).isSome = true := by
    intro l hl
    obtain ⟨e, _, rfl⟩ := List.mem_map.mp hl
    right
    rw [trim_goodLine (goodLine_elem e), elementLineChars_eq e,
      parseElementLine_elem e.1.1 e.1.2 e.2]
    rfl
  rw [parseMatrix_eq hsplit hrow hcol hlines]
  have htrip : (m.elements.map elementLineChars).filterMap lineTriple =
      m.elements.map (fun e => (e.1.1, e.1.2, e.2)) := by
    rw [List.filterMap_map]
    have : (lineTriple ∘ elementLineChars) =
        some ∘ fun e : (Nat × Nat) × Int => (e.1.1, e.1.2, e.2) := by
      funext e
      exact lineTriple_elementLineChars e
    rw [this, List.filterMap_eq_map]
  rw [htrip, List.map_map]
  have hentries : (tripleEntry ∘ fun e : (Nat × Nat) × Int => (e.1.1, e.1.2, e.2)) =
      id := by
    funext e
    show ((e.1.1, e.1.2), e.2) = e
    rfl
  rw [hentries, List.map_id]
  have helems := elements_copyFold m.elements (createSparseMatrix m.rows m.cols)
    (by simpa [createSparseMatrix] using hm.1)
  have hrows : (copyFold m.elements (createSparseMatrix m.rows m.cols)).rows =
      m.rows := by
    rw [rows_copyFold]
    exact foldl_max_eq_of_le _ _ _ (fun e he => (hm.2 e he).1)
  have hcols : (copyFold m.elements (createSparseMatrix m.rows m.cols)).cols =
      m.cols := by
    rw [cols_copyFold]
    exact foldl_max_eq_of_le _ _ _ (fun e he => (hm.2 e he).2)
  congr 1
  cases hres : copyFold m.elements (createSparseMatrix m.rows m.cols)
  rw [hres] at helems hrows hcols
  simp only [createSparseMatrix, List.nil_append] at helems
  cases m
  congr 1

/-! ## Lemmas: last-write-wins and extent growth during parsing -/

theorem lookupElem_copyFold (l : List ((Nat × Nat) × Int)) :
    ∀ (m0 : SparseMatrix) (k : Nat × Nat),
    lookupElem (copyFold l m0).elements k =
      match l.reverse.find? (fun e => e.1 = k) with
      | some e => some e.2
      | none => lookupElem m0.elements k := by
  induction l with
  | nil => intro m0 k; rfl
  | cons e t ih =>
    intro m0 k
    rw [show copyFold (e :: t) m0 =
      copyFold t (setMatrixElement m0 e.1.1 e.1.2 e.2) from rfl, ih,
      List.reverse_cons, List.find?_append]
    cases hf : t.reverse.find? (fun e' => decide (e'.1 = k)) with
    | some e' => rfl
    | none =>
      show (lookupElem (setKey m0.elements (e.1.1, e.1.2) e.2) k) = _
      rw [lookupElem_setKey]
      by_cases hek : e.1 = k
      · have : k = (e.1.1, e.1.2) := by rw [← hek]
        rw [if_pos this]
        simp [List.find?_cons, hek]
      · have : ¬ k = (e.1.1, e.1.2) := by
          intro hk
          exact hek (by rw [hk])
        rw [if_neg this]
        simp [List.find?_cons, hek]

theorem parseElements_good_of_ok {lines : List (List Char)} {i : Nat}
    {m0 m : SparseMatrix} (h : parseElements lines i m0 = .ok m) :
    ∀ l ∈ lines, trimChars l = [] ∨ (parseElementLine (trimChars l)).isSome = true := by
  have herr : exceptIsError (parseElements lines i m0) = false := by
    rw [h]; rfl
  rw [parseElements_isError] at herr
  intro l hl
  have := List.any_eq_false.mp herr l hl
  rcases hp : parseElementLine (trimChars l) with _ | t
  · left
    by_contra hne
    rw [hp] at this
    simp [hne] at this
  · right
    rfl

theorem parseMatrix_ok_structure {text : List Char} {m : SparseMatrix}
    (h : parseMatrix text = .ok m) :
    ∃ l0 l1 rest R C, splitNewline text = l0 :: l1 :: rest ∧
      parseHeader "rows=".data (trimChars l0) = some R ∧
      parseHeader "cols=".data (trimChars l1) = some C ∧
      m = copyFold ((rest.filterMap lineTriple).map tripleEntry)
        (createSparseMatrix R C) := by
  unfold parseMatrix at h
  rcases hsplit : splitNewline text with _ | ⟨l0, _ | ⟨l1, rest⟩⟩ <;> rw [hsplit] at h
  · cases h
  · cases h
  · rw [parseMatrixLines] at h
    rcases hrow : parseHeader "rows=".data (trimChars l0) with _ | R <;> rw [hrow] at h
    · cases h
    · rcases hcol : parseHeader "cols=".data (trimChars l1) with _ | C <;> rw [hcol] at h
      · cases h
      · have h2 : parseElements rest 2 (createSparseMatrix R C) = Except.ok m := h
        refine ⟨l0, l1, rest, R, C, rfl, hrow, hcol, ?_⟩
        have hg := parseElements_good_of_ok h2
        rw [parseElements_ok rest 2 _ hg] at h2
        exact (Except.ok.injEq _ _).mp h2.symm

/-! ## Lemmas: heap model frame conditions -/

theorem heapGet_set_ne (h : List SparseMatrix) (ref i : Nat) (hne : i ≠ ref)
    (mtx : SparseMatrix) : heapGet (h.set ref mtx) i = heapGet h i := by
  unfold heapGet
  rw [List.getD_eq_getElem?_getD, List.getD_eq_getElem?_getD,
    List.getElem?_set_ne (fun hh => hne hh.symm)]

theorem heapGet_append_lt (h : List SparseMatrix) (x : SparseMatrix) (i : Nat)
    (hi : i < h.length) : heapGet (h ++ [x]) i = heapGet h i := by
  unfold heapGet
  rw [List.getD_eq_getElem?_getD, List.getD_eq_getElem?_getD,
    List.getElem?_append, if_pos hi]

theorem heapGet_foldl_preserve {α : Type} (step : List SparseMatrix → α →
    List SparseMatrix) (i : Nat)
    (H : ∀ hh e, heapGet (step hh e) i = heapGet hh i) :
    ∀ (l : List α) (h : List SparseMatrix),
    heapGet (l.foldl step h) i = heapGet h i := by
  intro l
  induction l with
  | nil => intro h; rfl
  | cons e t ih =>
    intro h
    rw [List.foldl_cons, ih, H]

theorem heapGet_addPass1 (h : List SparseMatrix) (r1 res i : Nat)
    (hi : i ≠ res) : heapGet (addPass1 h r1 res) i = heapGet h i :=
  heapGet_foldl_preserve _ i
    (fun hh _ => heapGet_set_ne hh res i hi _) _ h

theorem heapGet_addPass2 (h : List SparseMatrix) (r2 res i : Nat)
    (hi : i ≠ res) : heapGet (addPass2 h r2 res) i = heapGet h i :=
  heapGet_foldl_preserve _ i
    (fun hh _ => heapGet_set_ne hh res i hi _) _ h

theorem heapGet_subPass2 (h : List SparseMatrix) (r2 res i : Nat)
    (hi : i ≠ res) : heapGet (subPass2 h r2 res) i = heapGet h i :=
  heapGet_foldl_preserve _ i
    (fun hh _ => heapGet_set_ne hh res i hi _) _ h

theorem heapGet_mulPass (h : List SparseMatrix) (r1 r2 res i : Nat)
    (hi : i ≠ res) : heapGet (mulPass h r1 r2 res) i = heapGet h i := by
  apply heapGet_foldl_preserve _ i
  intro hh e
  apply heapGet_foldl_preserve _ i
  intro hh2 k
  split
  · exact heapGet_set_ne hh2 res i hi _
  · rfl

/-! ## Claim theorems -/

/-- Claim C1, counterexample: the claim states that parse fails exactly
when some line fails to match its pattern, reading "match" as matching the
whole trimmed line.  On the input `rows=2\ncols=2\n(0,0,5)x` the third
line does not match the element pattern (trailing `x`), so the claim
requires failure, yet parse succeeds and simply ignores the trailing
characters, because the source's regexes are anchored only at the start. -/
theorem claimC1_counterexample :
    specParseFailsFull "rows=2\ncols=2\n(0,0,5)x".data = true ∧
    parseMatrix "rows=2\ncols=2\n(0,0,5)x".data =
      .ok { rows := 2, cols := 2, elements := [((0, 0), 5)] } := by
  constructor
  · rfl
  · rfl

/-- Claim C1, amended: parse fails (always with a FormatError) exactly when
the text has fewer than two lines, a trimmed header line does not match
`rows=`/`cols=` followed by a non-negative integer as a prefix, or some
non-blank trimmed line after the second does not match
`(<non-negative integer>, <non-negative integer>, <optionally-negative
integer>)` as a prefix — i.e. with trailing characters after the matched
portion ignored, as the source's start-anchored regexes do. -/
theorem claimC1_amended (text : List Char) :
    (∃ e, parseMatrix text = .error e ∧ e.isFormatError = true) ↔
      specParseFailsPrefix text = true := by
  constructor
  · rintro ⟨e, he, _⟩
    rw [← parseMatrix_fails_iff, he]
    rfl
  · intro hs
    rw [← parseMatrix_fails_iff] at hs
    cases hpm : parseMatrix text with
    | error e => exact ⟨e, rfl, parseMatrix_error_format text e hpm⟩
    | ok mm =>
      rw [hpm] at hs
      cases hs

/-- Claim C1 witness: the amended equivalence at a one-line input, which
fails with the not-enough-lines FormatError. -/
theorem claimC1_witness : specParseFailsPrefix "rows=2".data = true :=
  (claimC1_amended "rows=2".data).mp ⟨.notEnoughLines, rfl, rfl⟩

/-- Claim C3: for well-formed matrices of equal dimensions, adding B and
then subtracting B reproduces A element-for-element, with A's extents. -/
theorem claimC3 (A B : SparseMatrix) (hA : wfM A) (hB : wfM B)
    (hr : A.rows = B.rows) (hc : A.cols = B.cols) :
    ∃ C D, addMatrices A B = .ok C ∧ subtractMatrices C B = .ok D ∧
      D.rows = A.rows ∧ D.cols = A.cols ∧
      ∀ i j, getMatrixElement D i j = getMatrixElement A i j := by
  obtain ⟨C, hC, hCr, hCc, hCwf, hCget⟩ := addMatrices_ok hA hB hr hc
  obtain ⟨D, hD, hDr, hDc, _, hDget⟩ :=
    subtractMatrices_ok hCwf hB (hCr.trans hr) (hCc.trans hc)
  refine ⟨C, D, hC, hD, hDr.trans hCr, hDc.trans hCc, fun i j => ?_⟩
  rw [hDget, hCget]
  ring

/-- Claim C3 witness at concrete matrices. -/
theorem claimC3_witness :
    ∃ C D, addMatrices ⟨1, 2, [((0, 0), 3), ((0, 1), -2)]⟩
        ⟨1, 2, [((0, 0), 5)]⟩ = .ok C ∧
      subtractMatrices C ⟨1, 2, [((0, 0), 5)]⟩ = .ok D ∧
      D.rows = (⟨1, 2, [((0, 0), 3), ((0, 1), -2)]⟩ : SparseMatrix).rows ∧
      D.cols = (⟨1, 2, [((0, 0), 3), ((0, 1), -2)]⟩ : SparseMatrix).cols ∧
      ∀ i j, getMatrixElement D i j =
        getMatrixElement ⟨1, 2, [((0, 0), 3), ((0, 1), -2)]⟩ i j :=
  claimC3 _ _ (by decide) (by decide) rfl rfl

/-- Claim C5: serializing a well-formed matrix and parsing the result
succeeds and returns a matrix with the same extents and exactly the same
element mapping (explicit zeros included). -/
theorem claimC5 (m : SparseMatrix) (hm : wfM m) :
    ∃ m2, parseMatrix (matrixToString m) = .ok m2 ∧ m2.rows = m.rows ∧
      m2.cols = m.cols ∧
      ∀ k : Nat × Nat, lookupElem m2.elements k = lookupElem m.elements k :=
  ⟨m, parseMatrix_matrixToString m hm, rfl, rfl, fun _ => rfl⟩

/-- Claim C5 witness at a concrete matrix with a negative value and an
explicit stored zero. -/
theorem claimC5_witness :
    ∃ m2, parseMatrix (matrixToString
        ⟨2, 3, [((0, 0), 5), ((1, 2), -7), ((0, 1), 0)]⟩) = .ok m2 ∧
      m2.rows = (⟨2, 3, [((0, 0), 5), ((1, 2), -7), ((0, 1), 0)]⟩ : SparseMatrix).rows ∧
      m2.cols = (⟨2, 3, [((0, 0), 5), ((1, 2), -7), ((0, 1), 0)]⟩ : SparseMatrix).cols ∧
      ∀ k : Nat × Nat, lookupElem m2.elements k =
        lookupElem (⟨2, 3, [((0, 0), 5), ((1, 2), -7), ((0, 1), 0)]⟩ :
          SparseMatrix).elements k :=
  claimC5 _ (by decide)

/-- Claim C6: a set at (r, c) grows the row extent to r+1 when r is at or
beyond the current row extent, likewise for columns, never shrinks either
extent, and in particular set(create(1,1), 4, 4, 9) has extents 5 × 5. -/
theorem claimC6 (m : SparseMatrix) (r c : Nat) (v : Int) :
    (m.rows ≤ r → (setMatrixElement m r c v).rows = r + 1) ∧
    m.rows ≤ (setMatrixElement m r c v).rows ∧
    (m.cols ≤ c → (setMatrixElement m r c v).cols = c + 1) ∧
    m.cols ≤ (setMatrixElement m r c v).cols ∧
    (setMatrixElement (createSparseMatrix 1 1) 4 4 9).rows = 5 ∧
    (setMatrixElement (createSparseMatrix 1 1) 4 4 9).cols = 5 := by
  refine ⟨?_, ?_, ?_, ?_, rfl, rfl⟩
  · intro h
    rw [rows_set]
    omega
  · rw [rows_set]
    omega
  · intro h
    rw [cols_set]
    omega
  · rw [cols_set]
    omega

/-- Claim C6 witness: growth at the concrete instance from the spec. -/
theorem claimC6_witness :
    (createSparseMatrix 1 1).rows ≤ 4 ∧
    (setMatrixElement (createSparseMatrix 1 1) 4 4 9).rows = 4 + 1 ∧
    (createSparseMatrix 1 1).cols ≤ 4 ∧
    (setMatrixElement (createSparseMatrix 1 1) 4 4 9).cols = 4 + 1 :=
  ⟨by decide, (claimC6 (createSparseMatrix 1 1) 4 4 9).1 (by decide),
    by decide, (claimC6 (createSparseMatrix 1 1) 4 4 9).2.2.1 (by decide)⟩

/-- Claim C9: the well-formedness invariant — distinct stored keys, all
stored coordinates within the declared extents — holds for matrices built
by create and parse and for every arithmetic result, and is preserved by
set. -/
theorem claimC9 :
    (∀ r c, wfM (createSparseMatrix r c)) ∧
    (∀ m r c v, wfM m → wfM (setMatrixElement m r c v)) ∧
    (∀ text m, parseMatrix text = .ok m → wfM m) ∧
    (∀ a b m, addMatrices a b = .ok m → wfM m) ∧
    (∀ a b m, subtractMatrices a b = .ok m → wfM m) ∧
    (∀ a b m, multiplyMatrices a b = .ok m → wfM m) := by
  refine ⟨wfM_create, fun m r c v hm => wfM_set hm r c v, ?_, ?_, ?_, ?_⟩
  · intro text m h
    obtain ⟨l0, l1, rest, R, C, _, _, _, rfl⟩ := parseMatrix_ok_structure h
    exact wfM_copyFold _ (wfM_create R C)
  · intro a b m h
    unfold addMatrices at h
    split at h
    · cases h
    · cases h
      exact wfM_accumFold _ _ (wfM_copyFold _ (wfM_create _ _))
  · intro a b m h
    unfold subtractMatrices at h
    split at h
    · cases h
    · cases h
      exact wfM_accumFold _ _ (wfM_copyFold _ (wfM_create _ _))
  · intro a b m h
    unfold multiplyMatrices at h
    split at h
    · cases h
    · cases h
      exact wfM_mulFold _ _ _ (wfM_create _ _)

/-- Claim C9 witness: the invariant at concrete instances, through the
theorem's set- and parse-preservation conjuncts. -/
theorem claimC9_witness :
    wfM (setMatrixElement ⟨1, 1, [((0, 0), 2)]⟩ 4 4 9) ∧
    wfM ⟨2, 2, [((0, 0), 5)]⟩ :=
  ⟨claimC9.2.1 ⟨1, 1, [((0, 0), 2)]⟩ 4 4 9 (by decide),
    claimC9.2.2.1 "rows=2\ncols=2\n(0,0,5)".data ⟨2, 2, [((0, 0), 5)]⟩ rfl⟩

/-- Claim C10: parse treats element coordinates at or beyond the declared
header extents not as errors: on a text with parseable headers rows=R,
cols=C and element lines that all match, parse succeeds, and the result's
extents are the fold of max(·, coordinate+1) over the element triples
starting from the declared R and C — the declared header values are
silently exceeded. -/
theorem claimC10 {text l0 l1 : List Char} {rest : List (List Char)}
    (hsplit : splitNewline text = l0 :: l1 :: rest) {R C : Nat}
    (hrow : parseHeader "rows=".data (trimChars l0) = some R)
    (hcol : parseHeader "cols=".data (trimChars l1) = some C)
    (hlines : ∀ l ∈ rest,
      trimChars l = [] ∨ (parseElementLine (trimChars l)).isSome = true) :
    ∃ m, parseMatrix text = .ok m ∧
      m.rows = (rest.filterMap lineTriple).foldl (fun a t => max a (t.1 + 1)) R ∧
      m.cols = (rest.filterMap lineTriple).foldl (fun a t => max a (t.2.1 + 1)) C := by
  refine ⟨_, parseMatrix_eq hsplit hrow hcol hlines, ?_, ?_⟩
  · rw [rows_copyFold, List.foldl_map]
    rfl
  · rw [cols_copyFold, List.foldl_map]
    rfl

/-- Claim C10 witness: a text declaring 2 × 2 with an element at (5, 1)
parses successfully into a matrix with rows = 6, cols = 2. -/
theorem claimC10_witness :
    ∃ m, parseMatrix "rows=2\ncols=2\n(5,1,9)".data = .ok m ∧
      m.rows = 6 ∧ m.cols = 2 := by
  obtain ⟨m, hm, hr, hc⟩ := @claimC10 "rows=2\ncols=2\n(5,1,9)".data
    "rows=2".data "cols=2".data ["(5,1,9)".data] rfl 2 2 rfl rfl (by decide)
  exact ⟨m, hm, by rw [hr]; rfl, by rw [hc]; rfl⟩

/-- Claim C8: on a successfully parsed text, the stored value at every
coordinate is the value of the last element line for that coordinate in
file order (lines after the two headers), and stored keys are never
duplicated. -/
theorem claimC8 {text : List Char} {m : SparseMatrix}
    (h : parseMatrix text = .ok m) :
    (m.elements.map Prod.fst).Nodup ∧
    ∀ r c, lookupElem m.elements (r, c) =
      lastTriple ((splitNewline text).drop 2) r c := by
  obtain ⟨l0, l1, rest, R, C, hsplit, hrow, hcol, rfl⟩ := parseMatrix_ok_structure h
  refine ⟨(wfM_copyFold _ (wfM_create R C)).1, fun r c => ?_⟩
  rw [lookupElem_copyFold, hsplit]
  show _ = lastTriple rest r c
  unfold lastTriple
  rw [← List.map_reverse, List.find?_map]
  have hpred : ((fun e : (Nat × Nat) × Int => decide (e.1 = (r, c))) ∘ tripleEntry) =
      fun t : Nat × Nat × Int => decide (t.1 = r) && decide (t.2.1 = c) := by
    funext t
    show decide ((t.1, t.2.1) = (r, c)) = _
    simp [Prod.ext_iff]
  rw [hpred]
  cases hf : (rest.filterMap lineTriple).reverse.find?
      (fun t => decide (t.1 = r) && decide (t.2.1 = c)) with
  | none => rfl
  | some t => rfl

/-- Claim C8 witness: a duplicated coordinate (0,0) whose last line holds 7
parses to a matrix storing 7 there, once. -/
theorem claimC8_witness :
    ((⟨2, 2, [((0, 0), 7)]⟩ : SparseMatrix).elements.map Prod.fst).Nodup ∧
    ∀ r c, lookupElem (⟨2, 2, [((0, 0), 7)]⟩ : SparseMatrix).elements (r, c) =
      lastTriple ((splitNewline "rows=2\ncols=2\n(0,0,5)\n(0,0,7)".data).drop 2) r c :=
  @claimC8 "rows=2\ncols=2\n(0,0,5)\n(0,0,7)".data ⟨2, 2, [((0, 0), 7)]⟩ rfl

/-- Claim C2: multiplication fails with DimensionMismatch exactly on an
inner-dimension mismatch; otherwise the result has extents
(a.rows, b.cols) and each in-range entry is the dot product
of the corresponding row of a and column of b, and removing the skip of
exact zeros of b changes no result value. -/
theorem claimC2 (a b : SparseMatrix) (ha : wfM a) (_hb : wfM b) :
    (a.cols ≠ b.rows → multiplyMatrices a b = .error .dimensionMismatch) ∧
    (a.cols = b.rows → ∃ res res2,
      multiplyMatrices a b = .ok res ∧ res.rows = a.rows ∧ res.cols = b.cols ∧
      (∀ i j, i < a.rows → j < b.cols →
        getMatrixElement res i j = ∑ k ∈ Finset.range a.cols,
          getMatrixElement a i k * getMatrixElement b k j) ∧
      multiplyMatricesNoSkip a b = .ok res2 ∧
      (∀ i j, getMatrixElement res2 i j = getMatrixElement res i j)) := by
  constructor
  · intro hne
    unfold multiplyMatrices
    rw [if_pos hne]
  · intro hdim
    obtain ⟨res, hres, hrr, hrc, _, hget⟩ := multiplyMatrices_ok ha hdim
    obtain ⟨res1, res2, hres1, hres2, hgeteq⟩ := multiplyNoSkip_get_eq a b hdim
    have hr : res1 = res := by
      rw [hres] at hres1
      exact ((Except.ok.injEq _ _).mp hres1).symm
    subst hr
    refine ⟨res1, res2, hres, hrr, hrc, fun i j hi hj => ?_, hres2, hgeteq⟩
    rw [hget, if_pos hj]

/-- Claim C2 witness: a concrete dimension mismatch raises the error. -/
theorem claimC2_witness :
    wfM ⟨2, 2, [((0, 0), 2)]⟩ ∧ wfM ⟨3, 2, [((1, 1), 4)]⟩ ∧
    multiplyMatrices ⟨2, 2, [((0, 0), 2)]⟩ ⟨3, 2, [((1, 1), 4)]⟩ =
      .error .dimensionMismatch :=
  ⟨by decide, by decide,
    (claimC2 ⟨2, 2, [((0, 0), 2)]⟩ ⟨3, 2, [((1, 1), 4)]⟩
      (by decide) (by decide)).1 (by decide)⟩

/-- Claim C7: in the heap model, each of the three arithmetic operations
leaves every pre-existing heap object — in particular both inputs —
unchanged, whether it returns a result or fails with a dimension
mismatch, and a returned result reference is freshly allocated, distinct
from both input references. -/
theorem claimC7 (h : List SparseMatrix) (r1 r2 : Nat)
    (h1 : r1 < h.length) (h2 : r2 < h.length) :
    ((∀ i, i < h.length → heapGet (addRef h r1 r2).1 i = heapGet h i) ∧
      ∀ res, (addRef h r1 r2).2 = .ok res → res ≠ r1 ∧ res ≠ r2) ∧
    ((∀ i, i < h.length → heapGet (subtractRef h r1 r2).1 i = heapGet h i) ∧
      ∀ res, (subtractRef h r1 r2).2 = .ok res → res ≠ r1 ∧ res ≠ r2) ∧
    ((∀ i, i < h.length → heapGet (multiplyRef h r1 r2).1 i = heapGet h i) ∧
      ∀ res, (multiplyRef h r1 r2).2 = .ok res → res ≠ r1 ∧ res ≠ r2) := by
  refine ⟨⟨?_, ?_⟩, ⟨?_, ?_⟩, ⟨?_, ?_⟩⟩
  · intro i hi
    unfold addRef
    split
    · rfl
    · show heapGet (addPass2 (addPass1 _ r1 h.length) r2 h.length) i = _
      rw [heapGet_addPass2 _ _ _ _ (by omega), heapGet_addPass1 _ _ _ _ (by omega),
        heapGet_append_lt _ _ _ hi]
  · intro res hres
    unfold addRef at hres
    split at hres
    · cases hres
    · cases hres
      omega
  · intro i hi
    unfold subtractRef
    split
    · rfl
    · show heapGet (subPass2 (addPass1 _ r1 h.length) r2 h.length) i = _
      rw [heapGet_subPass2 _ _ _ _ (by omega), heapGet_addPass1 _ _ _ _ (by omega),
        heapGet_append_lt _ _ _ hi]
  · intro res hres
    unfold subtractRef at hres
    split at hres
    · cases hres
    · cases hres
      omega
  · intro i hi
    unfold multiplyRef
    split
    · rfl
    · show heapGet (mulPass _ r1 r2 h.length) i = _
      rw [heapGet_mulPass _ _ _ _ _ (by omega), heapGet_append_lt _ _ _ hi]
  · intro res hres
    unfold multiplyRef at hres
    split at hres
    · cases hres
    · cases hres
      omega

/-- Claim C7 witness: a concrete two-matrix heap is untouched by the
three operations at valid references. -/
theorem claimC7_witness :
    (∀ i, i < 2 → heapGet
      (addRef [⟨1, 1, [((0, 0), 2)]⟩, ⟨1, 1, [((0, 0), 3)]⟩] 0 1).1 i =
        heapGet [⟨1, 1, [((0, 0), 2)]⟩, ⟨1, 1, [((0, 0), 3)]⟩] i) ∧
    ∀ res, (addRef [⟨1, 1, [((0, 0), 2)]⟩, ⟨1, 1, [((0, 0), 3)]⟩] 0 1).2 =
      .ok res → res ≠ 0 ∧ res ≠ 1 :=
  (claimC7 [⟨1, 1, [((0, 0), 2)]⟩, ⟨1, 1, [((0, 0), 3)]⟩] 0 1
    (by decide) (by decide)).1

/-- Claim C4: multiplication is associative on well-formed matrices with
chaining dimensions — both orders succeed, produce identical extents, and
agree element-for-element under get at every coordinate. -/
theorem claimC4 (A B C : SparseMatrix) (hA : wfM A) (hB : wfM B) (_hC : wfM C)
    (hABd : A.cols = B.rows) (hBCd : B.cols = C.rows) :
    ∃ AB BC L R, multiplyMatrices A B = .ok AB ∧ multiplyMatrices AB C = .ok L ∧
      multiplyMatrices B C = .ok BC ∧ multiplyMatrices A BC = .ok R ∧
      L.rows = R.rows ∧ L.cols = R.cols ∧
      ∀ i j, getMatrixElement L i j = getMatrixElement R i j := by
  obtain ⟨AB, hab, habr, habc, habwf, habget⟩ := multiplyMatrices_ok hA hABd
  obtain ⟨L, hl, hlr, hlc, _, hlget⟩ :=
    multiplyMatrices_ok habwf (by rw [habc, hBCd])
  obtain ⟨BC, hbc, hbcr, hbcc, hbcwf, hbcget⟩ := multiplyMatrices_ok hB hBCd
  obtain ⟨R, hr, hrr, hrc, _, hrget⟩ :=
    multiplyMatrices_ok hA (by rw [hABd, hbcr])
  refine ⟨AB, BC, L, R, hab, hl, hbc, hr, by rw [hlr, habr, hrr],
    by rw [hlc, hrc, hbcc], ?_⟩
  intro i j
  rw [hlget, hrget]
  by_cases hj : j < C.cols
  · rw [if_pos hj, if_pos (show j < BC.cols by rw [hbcc]; exact hj)]
    calc ∑ k ∈ Finset.range AB.cols,
          getMatrixElement AB i k * getMatrixElement C k j
        = ∑ k ∈ Finset.range B.cols, (∑ l ∈ Finset.range A.cols,
            getMatrixElement A i l * getMatrixElement B l k) *
              getMatrixElement C k j := by
          rw [habc]
          apply Finset.sum_congr rfl
          intro k hk
          rw [Finset.mem_range] at hk
          rw [habget i k, if_pos hk]
      _ = ∑ k ∈ Finset.range B.cols, ∑ l ∈ Finset.range A.cols,
            getMatrixElement A i l * getMatrixElement B l k *
              getMatrixElement C k j := by
          apply Finset.sum_congr rfl
          intro k _
          rw [Finset.sum_mul]
      _ = ∑ l ∈ Finset.range A.cols, ∑ k ∈ Finset.range B.cols,
            getMatrixElement A i l * getMatrixElement B l k *
              getMatrixElement C k j := Finset.sum_comm
      _ = ∑ l ∈ Finset.range A.cols, getMatrixElement A i l *
            ∑ k ∈ Finset.range B.cols,
              getMatrixElement B l k * getMatrixElement C k j := by
          apply Finset.sum_congr rfl
          intro l _
          rw [Finset.mul_sum]
          apply Finset.sum_congr rfl
          intro k _
          rw [mul_assoc]
      _ = ∑ l ∈ Finset.range A.cols,
            getMatrixElement A i l * getMatrixElement BC l j := by
          apply Finset.sum_congr rfl
          intro l _
          rw [hbcget l j, if_pos hj]
  · rw [if_neg hj, if_neg (show ¬ j < BC.cols by rw [hbcc]; exact hj)]

/-- Claim C4 witness at concrete chained matrices of shapes 1×2, 2×1, 1×1. -/
theorem claimC4_witness :
    ∃ AB BC L R,
      multiplyMatrices ⟨1, 2, [((0, 0), 2), ((0, 1), 3)]⟩
        ⟨2, 1, [((0, 0), 1), ((1, 0), 4)]⟩ = .ok AB ∧
      multiplyMatrices AB ⟨1, 1, [((0, 0), 5)]⟩ = .ok L ∧
      multiplyMatrices ⟨2, 1, [((0, 0), 1), ((1, 0), 4)]⟩
        ⟨1, 1, [((0, 0), 5)]⟩ = .ok BC ∧
      multiplyMatrices ⟨1, 2, [((0, 0), 2), ((0, 1), 3)]⟩ BC = .ok R ∧
      L.rows = R.rows ∧ L.cols = R.cols ∧
      ∀ i j, getMatrixElement L i j = getMatrixElement R i j :=
  claimC4 _ _ _ (by decide) (by decide) (by decide) rfl rfl

end AluMatrix
